import Mathlib

/-!
Verification of the voxel simulation engine of the gesture-controlled voxel
toy box (`src/services/SoundEngine.ts`, class `VoxelEngine`), of the gesture
interpreter (`src/components/GestureController.tsx`), and of the JSON
export / import pipeline (`VoxelEngine.getJsonData`, `handleJsonImport` in
the application root, `VoxelEngine.createVoxels`).

The TypeScript code is shallowly embedded: JavaScript numbers are modelled as
real numbers, `Math.random()` draws are modelled by an explicit stream
`rng : ℕ → ℝ` of values (each draw reads the next index, in program order),
and the mutable `VoxelEngine` class fields become an explicit `Engine`
record threaded through pure functions.  Because the embedding uses `ℝ`
(the source compares square roots and real powers), branching on real
comparisons uses classical decidability, so most definitions are
`noncomputable`; concrete evaluations in the theorems below are carried out
by unfolding and `norm_num`.
-/

open scoped Classical

namespace VoxelToy

/-- One of the three phases of the scene state machine
(`AppState` in `types.ts`, as used by `VoxelEngine`). -/
inductive AppState where
  | STABLE
  | DISMANTLING
  | REBUILDING
deriving DecidableEq

/-- A 3-dimensional vector (`THREE.Vector3` as used by the engine). -/
structure Vec3 where
  x : ℝ
  y : ℝ
  z : ℝ


/-- An RGB color with components in scene units ([0,1] for colors produced by
`THREE.Color`); models the `color : THREE.Color` field of a simulation voxel. -/
structure ColorRGB where
  r : ℝ
  g : ℝ
  b : ℝ


/-- A voxel of a model description: position plus a 24-bit RGB color
(`VoxelData` in `types.ts`). -/
structure VoxelData where
  x : ℝ
  y : ℝ
  z : ℝ
  color : ℕ


/-- Per-particle simulation state (`SimulationVoxel` in `types.ts`):
identity, position, color, velocity, rotation, angular velocity and the
dismantle stagger delay. -/
structure SimulationVoxel where
  id : ℕ
  x : ℝ
  y : ℝ
  z : ℝ
  color : ColorRGB
  vx : ℝ
  vy : ℝ
  vz : ℝ
  rx : ℝ
  ry : ℝ
  rz : ℝ
  rvx : ℝ
  rvy : ℝ
  rvz : ℝ
  dismantleDelay : ℝ


/-- A rebuild assignment for one particle (`RebuildTarget` in `types.ts`):
either a destination with a flight delay, or a rubble marker that freezes the
particle at its recorded position. -/
structure RebuildTarget where
  x : ℝ
  y : ℝ
  z : ℝ
  delay : ℝ
  isRubble : Bool


/-- Modelled from the spec: `CONFIG.FLOOR_Y` from `utils/voxelConstants.ts`
(that file is not part of the sources).  The spec only ever uses the floor
height symbolically ("floor + half-voxel"), so its concrete value is
irrelevant to every claim; it is fixed at 0 here. -/
def FLOOR_Y : ℝ := 0

/-- Modelled from the spec: `COLORS.GREEN` from `utils/voxelConstants.ts`
(not part of the sources).  The rebuild matcher only compares target colors
against this constant for equality ("green-or-wood-classified" per the spec),
so the concrete 24-bit value is irrelevant to every claim. -/
def GREEN : ℕ := 0x00AA00

/-- Modelled from the spec: `COLORS.WOOD` from `utils/voxelConstants.ts`
(not part of the sources); see `GREEN`. -/
def WOOD : ℕ := 0x8B5A2B

/-- A stream of `Math.random()` results; each entry is the value of one draw,
indexed in program order.  A run of the real program corresponds to a stream
whose values all lie in [0, 1). -/
def Rng : Type := ℕ → ℝ

/-- `VoxelEngine.applyForce`: adds the (noise-scaled) directional impulse and
a random spin to every particle, but returns early — leaving every particle
untouched — when the engine is `STABLE`.  Particle `i` of the list consumes
draws `6*i .. 6*i+5` of the stream, matching the sequential `Math.random()`
calls of the source. -/
noncomputable def applyForce (state : AppState) (direction : Vec3)
    (strength : ℝ) (rng : Rng) (voxels : List SimulationVoxel) :
    List SimulationVoxel :=
  if state = AppState.STABLE then
    voxels
  else
    voxels.enum.map fun iv =>
      let i := iv.1
      let v := iv.2
      { v with
        vx := v.vx + direction.x * strength * (0.8 + rng (6 * i) * 0.4)
        vy := v.vy + direction.y * strength * (0.8 + rng (6 * i + 1) * 0.4)
        vz := v.vz + direction.z * strength * (0.8 + rng (6 * i + 2) * 0.4)
        rvx := v.rvx + (rng (6 * i + 3) - 0.5) * 0.2
        rvy := v.rvy + (rng (6 * i + 4) - 0.5) * 0.2
        rvz := v.rvz + (rng (6 * i + 5) - 0.5) * 0.2 }

/-- A concrete particle at the origin and at rest, used for concrete
evaluations of the engine operations. -/
def restParticle : SimulationVoxel :=
  { id := 0, x := 0, y := 0, z := 0, color := ⟨1, 0, 0⟩
    vx := 0, vy := 0, vz := 0, rx := 0, ry := 0, rz := 0
    rvx := 0, rvy := 0, rvz := 0, dismantleDelay := 0 }

/-- Claim C1 (counterexample): `applyForce` is NOT ignored while the state is
`Rebuilding`.  Calling it in state `REBUILDING` with direction (1,0,0),
strength 0.5 (the source's default) and the all-zero random stream changes
the resting particle's x-velocity from 0 to 0.4, so the claim that every
particle is left unchanged while `Rebuilding` is false. -/
theorem applyForce_rebuilding_not_ignored :
    (applyForce AppState.REBUILDING ⟨1, 0, 0⟩ 0.5 (fun _ => 0)
        [restParticle]).map SimulationVoxel.vx = [0.4] ∧
      restParticle.vx = 0 := by
  constructor
  · rw [applyForce, if_neg (by decide)]
    simp [restParticle, List.enum]
    norm_num
  · rfl

/-- Claim C1 (amended): `applyForce` is a no-op exactly while the state is
`STABLE`; in the other two states (`DISMANTLING` and `REBUILDING`) it adds
impulses to every particle's velocity and angular velocity while leaving
every particle's position and rotation (and identity, color and delay)
unchanged. -/
theorem applyForce_noop_only_when_stable (state : AppState) (direction : Vec3)
    (strength : ℝ) (rng : Rng) (voxels : List SimulationVoxel) :
    (state = AppState.STABLE →
      applyForce state direction strength rng voxels = voxels) ∧
    (applyForce state direction strength rng voxels).map
        (fun v => (v.id, v.x, v.y, v.z, v.rx, v.ry, v.rz)) =
      voxels.map (fun v => (v.id, v.x, v.y, v.z, v.rx, v.ry, v.rz)) := by
  constructor
  · intro h
    rw [applyForce, if_pos h]
  · rw [applyForce]
    by_cases h : state = AppState.STABLE
    · rw [if_pos h]
    · rw [if_neg h]
      rw [List.map_map]
      rw [show voxels = voxels.enum.map Prod.snd by rw [List.enum_map_snd]]
      rw [List.map_map, List.enum_map_snd]
      rfl

/-- Witness for `applyForce_noop_only_when_stable`: at the concrete state
`STABLE` the hypothesis of the first conjunct holds and `applyForce` returns
the particle list unchanged. -/
theorem applyForce_noop_only_when_stable_witness :
    applyForce AppState.STABLE ⟨1, 0, 0⟩ 0.5 (fun _ => 0) [restParticle] =
      [restParticle] :=
  (applyForce_noop_only_when_stable AppState.STABLE ⟨1, 0, 0⟩ 0.5
    (fun _ => 0) [restParticle]).1 rfl

/-- The break style of a dismantle request (`'explode' | 'swipe'`). -/
inductive BreakStyle where
  | explode
  | swipe
deriving DecidableEq

/-- The jittered dismantle ranking scores: particle `i` (by list position)
gets `y + Math.random() * 5` (`sortedWithNoise` construction in
`VoxelEngine.dismantle`, before sorting); draw `i` of the stream feeds
particle `i`. -/
noncomputable def dismantleScore (rng : Rng) (voxels : List SimulationVoxel) :
    List (ℕ × ℝ) :=
  voxels.enum.map fun iv => (iv.1, iv.2.y + rng iv.1 * 5)

/-- The ranking list sorted by score descending: models
`.sort((a, b) => b.score - a.score)` (a stable sort placing higher scores
first). -/
noncomputable def sortedWithNoise (rng : Rng) (voxels : List SimulationVoxel) :
    List (ℕ × ℝ) :=
  (dismantleScore rng voxels).mergeSort fun a b => decide (b.2 ≤ a.2)

/-- The stagger delay assigned to rank `k` out of `N`:
`Math.pow(index / this.voxels.length, 1.2) * totalDuration` with
`totalDuration = 1200`. -/
noncomputable def delayForRank (k N : ℕ) : ℝ :=
  ((k : ℝ) / (N : ℝ)) ^ (1.2 : ℝ) * 1200

/-- Position of the first entry keyed by `id` in a ranking list; models
lookup in the `delays : Map<number, number>` built from the sorted ranking
(each id is inserted exactly once, at its rank). -/
def lookupRank : List (ℕ × ℝ) → ℕ → Option ℕ
  | [], _ => none
  | p :: rest, id =>
    if p.1 = id then some 0 else (lookupRank rest id).map (· + 1)

/-- The delay map of `VoxelEngine.dismantle`: the particle with identity `id`
receives the delay of its rank in the jitter-sorted list
(`delays.get(v.id) || 0`, with a missing entry defaulting to 0). -/
noncomputable def dismantleDelays (rng : Rng) (voxels : List SimulationVoxel)
    (id : ℕ) : ℝ :=
  match lookupRank (sortedWithNoise rng voxels) id with
  | some k => delayForRank k voxels.length
  | none => 0

/-- `VoxelEngine.dismantle`: a no-op unless the state is `STABLE`; otherwise
switches to `DISMANTLING` and writes initial velocities, angular velocities
and stagger delays into every particle.  Draws `0 .. N-1` of the stream feed
the ranking jitter; particle `i` then consumes draws `N + 7*i .. N + 7*i + 6`
(force, x-jitter, y-pop, z-jitter, then the three spin components), matching
the source's sequential `Math.random()` calls. -/
noncomputable def dismantle (style : BreakStyle) (direction : Vec3)
    (state : AppState) (voxels : List SimulationVoxel) (rng : Rng) :
    AppState × List SimulationVoxel :=
  if state ≠ AppState.STABLE then (state, voxels)
  else
    let N := voxels.length
    let cx := (voxels.map (fun v => v.x)).sum / (N : ℝ)
    let _cy := (voxels.map (fun v => v.y)).sum / (N : ℝ)
    let cz := (voxels.map (fun v => v.z)).sum / (N : ℝ)
    (AppState.DISMANTLING,
      voxels.enum.map fun iv =>
        let i := iv.1
        let v := iv.2
        let draw := fun k => rng (N + 7 * i + k)
        match style with
        | BreakStyle.swipe =>
          let force := 0.5 + draw 0 * 0.5
          { v with
            vx := direction.x * force + (draw 1 - 0.5) * 0.2
            vy := draw 2 * 0.3 + 0.1
            vz := direction.z * force + (draw 3 - 0.5) * 0.2
            rvx := (draw 4 - 0.5) * 0.4
            rvy := (draw 5 - 0.5) * 0.4
            rvz := (draw 6 - 0.5) * 0.4
            dismantleDelay := dismantleDelays rng voxels v.id }
        | BreakStyle.explode =>
          let dx := v.x - cx
          let dz := v.z - cz
          let dist0 := Real.sqrt (dx * dx + dz * dz)
          let dist := if dist0 = 0 then 0.1 else dist0
          let force := 0.8 + draw 0 * 0.8
          { v with
            vx := dx / dist * force + (draw 1 - 0.5) * 0.5
            vy := draw 2 * 0.8 + 0.4
            vz := dz / dist * force + (draw 3 - 0.5) * 0.5
            rvx := (draw 4 - 0.5) * 0.4
            rvy := (draw 5 - 0.5) * 0.4
            rvz := (draw 6 - 0.5) * 0.4
            dismantleDelay := dismantleDelays rng voxels v.id })

theorem delayForRank_nonneg (k N : ℕ) : 0 ≤ delayForRank k N := by
  unfold delayForRank
  have h : (0 : ℝ) ≤ (k : ℝ) / (N : ℝ) := by positivity
  have := Real.rpow_nonneg h (1.2 : ℝ)
  linarith

theorem dismantleDelays_nonneg (rng : Rng) (voxels : List SimulationVoxel)
    (id : ℕ) : 0 ≤ dismantleDelays rng voxels id := by
  unfold dismantleDelays
  cases lookupRank (sortedWithNoise rng voxels) id with
  | none => exact le_refl 0
  | some k => exact delayForRank_nonneg k voxels.length

/-- Claim C4: `dismantle` in any state other than `STABLE` returns the state
and the particle store (including every stagger delay) unchanged; from
`STABLE` it moves the state to `DISMANTLING` and every particle of the
result carries a non-negative `dismantleDelay`. -/
theorem dismantle_guard_and_delays (style : BreakStyle) (direction : Vec3)
    (state : AppState) (voxels : List SimulationVoxel) (rng : Rng) :
    (state ≠ AppState.STABLE →
      dismantle style direction state voxels rng = (state, voxels)) ∧
    (state = AppState.STABLE →
      (dismantle style direction state voxels rng).1 = AppState.DISMANTLING ∧
      ∀ v ∈ (dismantle style direction state voxels rng).2,
        0 ≤ v.dismantleDelay) := by
  constructor
  · intro h
    rw [dismantle, if_pos h]
  · intro h
    rw [dismantle, if_neg (by simp [h])]
    refine ⟨rfl, ?_⟩
    intro v hv
    simp only [List.mem_map] at hv
    obtain ⟨iv, _, hiv⟩ := hv
    cases style <;> simp only at hiv <;> rw [← hiv] <;>
      exact dismantleDelays_nonneg rng voxels iv.2.id

/-- Witness for `dismantle_guard_and_delays`: with one concrete particle,
dismantling from `DISMANTLING` is a no-op, and dismantling from `STABLE`
yields state `DISMANTLING`. -/
theorem dismantle_guard_and_delays_witness :
    dismantle BreakStyle.explode ⟨0, 0, 0⟩ AppState.DISMANTLING
        [restParticle] (fun _ => 0) = (AppState.DISMANTLING, [restParticle]) ∧
    (dismantle BreakStyle.explode ⟨0, 0, 0⟩ AppState.STABLE
        [restParticle] (fun _ => 0)).1 = AppState.DISMANTLING :=
  ⟨(dismantle_guard_and_delays BreakStyle.explode ⟨0, 0, 0⟩
      AppState.DISMANTLING [restParticle] (fun _ => 0)).1 (by decide),
   ((dismantle_guard_and_delays BreakStyle.explode ⟨0, 0, 0⟩
      AppState.STABLE [restParticle] (fun _ => 0)).2 rfl).1⟩

theorem delayForRank_mono {k k' : ℕ} (N : ℕ) (h : k ≤ k') :
    delayForRank k N ≤ delayForRank k' N := by
  unfold delayForRank
  have h0 : (0 : ℝ) ≤ (k : ℝ) / (N : ℝ) := by positivity
  have h1 : (k : ℝ) / (N : ℝ) ≤ (k' : ℝ) / (N : ℝ) := by
    gcongr
  have h2 := Real.rpow_le_rpow h0 h1 (by norm_num : (0 : ℝ) ≤ 1.2)
  linarith

theorem lookupRank_some {l : List (ℕ × ℝ)} {id k : ℕ}
    (h : lookupRank l id = some k) :
    ∃ hk : k < l.length, (l.get ⟨k, hk⟩).1 = id := by
  induction l generalizing k with
  | nil => simp [lookupRank] at h
  | cons p rest ih =>
    rw [lookupRank] at h
    by_cases hp : p.1 = id
    · rw [if_pos hp] at h
      obtain rfl : k = 0 := by simpa using h.symm
      exact ⟨Nat.succ_pos _, hp⟩
    · rw [if_neg hp] at h
      obtain ⟨k', hk', rfl⟩ := Option.map_eq_some'.mp h
      obtain ⟨hlt, hget⟩ := ih hk'
      exact ⟨Nat.succ_lt_succ hlt, hget⟩

theorem lookupRank_get_of_nodup {l : List (ℕ × ℝ)}
    (hnd : (l.map Prod.fst).Nodup) {p : ℕ × ℝ} (hp : p ∈ l) :
    ∃ k, ∃ hk : k < l.length,
      lookupRank l p.1 = some k ∧ l.get ⟨k, hk⟩ = p := by
  induction l with
  | nil => simp at hp
  | cons q rest ih =>
    simp only [List.map_cons, List.nodup_cons] at hnd
    rcases List.mem_cons.mp hp with rfl | hmem
    · exact ⟨0, Nat.succ_pos _, by rw [lookupRank, if_pos rfl], rfl⟩
    · have hq : q.1 ≠ p.1 := by
        intro he
        exact hnd.1 (he ▸ List.mem_map_of_mem Prod.fst hmem)
      obtain ⟨k, hk, hlook, hget⟩ := ih hnd.2 hmem
      refine ⟨k + 1, Nat.succ_lt_succ hk, ?_, hget⟩
      rw [lookupRank, if_neg hq, hlook]
      rfl

theorem dismantleScore_map_fst (rng : Rng) (voxels : List SimulationVoxel) :
    (dismantleScore rng voxels).map Prod.fst = List.range voxels.length := by
  unfold dismantleScore
  rw [List.map_map]
  have : (Prod.fst ∘ fun iv : ℕ × SimulationVoxel =>
      (iv.1, iv.2.y + rng iv.1 * 5)) = Prod.fst := rfl
  rw [this, List.enum_map_fst]

theorem sortedWithNoise_perm (rng : Rng) (voxels : List SimulationVoxel) :
    (sortedWithNoise rng voxels).Perm (dismantleScore rng voxels) :=
  List.mergeSort_perm _ _

theorem sortedWithNoise_fst_nodup (rng : Rng)
    (voxels : List SimulationVoxel) :
    ((sortedWithNoise rng voxels).map Prod.fst).Nodup := by
  have hperm := (sortedWithNoise_perm rng voxels).map Prod.fst
  rw [dismantleScore_map_fst] at hperm
  exact hperm.nodup_iff.mpr (List.nodup_range voxels.length)

theorem sortedWithNoise_pairwise (rng : Rng)
    (voxels : List SimulationVoxel) :
    (sortedWithNoise rng voxels).Pairwise fun a b => b.2 ≤ a.2 := by
  have h := @List.sorted_mergeSort (ℕ × ℝ)
    (fun a b => decide (b.2 ≤ a.2))
    (fun a b c hab hbc => by
      simp only [decide_eq_true_eq] at hab hbc ⊢
      exact le_trans hbc hab)
    (fun a b => by
      rcases le_total b.2 a.2 with h | h
      · simp [h]
      · simp [h])
    (dismantleScore rng voxels)
  rw [show (sortedWithNoise rng voxels) =
    (dismantleScore rng voxels).mergeSort
      (fun a b => decide (b.2 ≤ a.2)) from rfl]
  exact List.Pairwise.imp (by intro a b hab; simpa using hab) h

theorem score_mem_sorted (rng : Rng) (voxels : List SimulationVoxel)
    {i : ℕ} (hi : i < voxels.length) :
    (i, (voxels.get ⟨i, hi⟩).y + rng i * 5) ∈ sortedWithNoise rng voxels := by
  rw [(sortedWithNoise_perm rng voxels).mem_iff]
  unfold dismantleScore
  have hm : (i, voxels.get ⟨i, hi⟩) ∈ voxels.enum := by
    rw [List.mem_iff_get]
    refine ⟨⟨i, by simpa using hi⟩, ?_⟩
    rw [List.get_eq_getElem, List.getElem_enum]
    rfl
  exact List.mem_map_of_mem _ hm

theorem dismantleDelays_le_of_score_gt (rng : Rng)
    (voxels : List SimulationVoxel) {i j : ℕ}
    (hi : i < voxels.length) (hj : j < voxels.length)
    (hscore : (voxels.get ⟨j, hj⟩).y + rng j * 5 <
              (voxels.get ⟨i, hi⟩).y + rng i * 5) :
    dismantleDelays rng voxels i ≤ dismantleDelays rng voxels j := by
  have hnd := sortedWithNoise_fst_nodup rng voxels
  obtain ⟨ki, hki, hlooki, hgeti⟩ :=
    lookupRank_get_of_nodup hnd (score_mem_sorted rng voxels hi)
  obtain ⟨kj, hkj, hlookj, hgetj⟩ :=
    lookupRank_get_of_nodup hnd (score_mem_sorted rng voxels hj)
  have hpair := (List.pairwise_iff_get).mp
    (sortedWithNoise_pairwise rng voxels)
  have hrank : ki ≤ kj := by
    by_contra hlt
    push_neg at hlt
    have := hpair ⟨kj, hkj⟩ ⟨ki, hki⟩ hlt
    rw [hgeti, hgetj] at this
    simp only at this
    linarith
  unfold dismantleDelays
  simp only at hlooki hlookj
  rw [hlooki, hlookj]
  exact delayForRank_mono voxels.length hrank

/-- Claim C7: the dismantle stagger schedule is order-preserving.  Rank `k`
of `N` receives delay `(k/N)^1.2 * 1200`, which is monotone non-decreasing in
the rank and zero for the earliest rank; a particle whose jittered score
(`y + random * 5`) is strictly larger than another's is ranked earlier and
receives a delay at most the other's; consequently, when the random jitters
lie in [0, 1) as `Math.random` guarantees, a particle at least 5 units higher
than another always receives a delay at most the other's. -/
theorem dismantle_stagger_order (rng : Rng) (voxels : List SimulationVoxel)
    (hr : ∀ n, 0 ≤ rng n ∧ rng n < 1) :
    (∀ k k' N : ℕ, k ≤ k' → delayForRank k N ≤ delayForRank k' N) ∧
    (∀ N : ℕ, delayForRank 0 N = 0) ∧
    (∀ i j (hi : i < voxels.length) (hj : j < voxels.length),
      (voxels.get ⟨j, hj⟩).y + rng j * 5 < (voxels.get ⟨i, hi⟩).y + rng i * 5 →
      dismantleDelays rng voxels i ≤ dismantleDelays rng voxels j) ∧
    (∀ i j (hi : i < voxels.length) (hj : j < voxels.length),
      (voxels.get ⟨j, hj⟩).y + 5 ≤ (voxels.get ⟨i, hi⟩).y →
      dismantleDelays rng voxels i ≤ dismantleDelays rng voxels j) := by
  refine ⟨fun k k' N h => delayForRank_mono N h, ?_, ?_, ?_⟩
  · intro N
    unfold delayForRank
    rw [Nat.cast_zero, zero_div, Real.zero_rpow (by norm_num), zero_mul]
  · intro i j hi hj h
    exact dismantleDelays_le_of_score_gt rng voxels hi hj h
  · intro i j hi hj h
    refine dismantleDelays_le_of_score_gt rng voxels hi hj ?_
    have h1 := (hr i).1
    have h2 := (hr j).2
    nlinarith

/-- Witness for `dismantle_stagger_order`: with two concrete particles (one
at height 10, one at height 0) and the all-zero jitter stream, the higher
particle's delay is at most the lower particle's, and rank 0 receives
delay 0. -/
theorem dismantle_stagger_order_witness :
    dismantleDelays (fun _ => 0)
        [{ restParticle with y := 10 }, restParticle] 0 ≤
      dismantleDelays (fun _ => 0)
        [{ restParticle with y := 10 }, restParticle] 1 ∧
    delayForRank 0 2 = 0 := by
  have h := dismantle_stagger_order (fun _ => 0)
    [{ restParticle with y := 10 }, restParticle]
    (fun n => ⟨le_refl 0, by norm_num⟩)
  refine ⟨h.2.2.2 0 1 (by norm_num) (by norm_num) ?_, h.2.1 2⟩
  show restParticle.y + 5 ≤ ({ restParticle with y := 10 } : SimulationVoxel).y
  rw [show restParticle.y = 0 from rfl]
  norm_num

/-- JavaScript's `%` operator on non-negative reals (used by the swarm
offset computation: `seed % 100`, `(seed * 3.7) % 1`, `seed % 12`). -/
noncomputable def fmod (x y : ℝ) : ℝ := x - y * (⌊x / y⌋ : ℤ)

/-- The hand-attraction step of `VoxelEngine.updatePhysics` while
`DISMANTLING`: spring force toward a pseudo-random offset around the
attractor plus sinusoidal noise, velocity damping 0.88, and the 0.04
counter-gravity bias.  Only the velocity components change. -/
noncomputable def handAttract (now : ℝ) (hp : Vec3) (v : SimulationVoxel) :
    SimulationVoxel :=
  let seed := (v.id : ℝ) * 137.508
  let phi := Real.arccos (1 - 2 * (fmod seed 100 / 100))
  let theta := 2 * Real.pi * fmod (seed * 3.7) 1
  let r := 4 + fmod seed 12
  let time := now * 0.001
  let noiseX := Real.sin (time + (v.id : ℝ)) * 2
  let noiseY := Real.cos (time + (v.id : ℝ) * 0.5) * 2
  let noiseZ := Real.sin (time * 0.8 + (v.id : ℝ) * 0.2) * 2
  let targetX := hp.x + r * Real.sin phi * Real.cos theta + noiseX
  let targetY := hp.y + r * Real.cos phi + noiseY
  let targetZ := hp.z + r * Real.sin phi * Real.sin theta + noiseZ
  { v with
    vx := (v.vx + (targetX - v.x) * 0.06) * 0.88
    vy := (v.vy + (targetY - v.y) * 0.06) * 0.88 + 0.04
    vz := (v.vz + (targetZ - v.z) * 0.06) * 0.88 }

/-- Gravity, explicit-Euler integration and the floor bounce of
`VoxelEngine.updatePhysics` while `DISMANTLING`: `vy -= 0.04`, position and
rotation advance by (angular) velocity, and if the new height falls below
`FLOOR_Y + 0.5` it is clamped there while the vertical velocity is inverted
and damped (× −0.4) and horizontal and angular velocities receive friction
(× 0.8). -/
noncomputable def integrateVoxel (v : SimulationVoxel) : SimulationVoxel :=
  let vy1 := v.vy - 0.04
  let y1 := v.y + vy1
  let v1 := { v with
    vy := vy1
    x := v.x + v.vx
    y := y1
    z := v.z + v.vz
    rx := v.rx + v.rvx
    ry := v.ry + v.rvy
    rz := v.rz + v.rvz }
  if y1 < FLOOR_Y + 0.5 then
    { v1 with
      y := FLOOR_Y + 0.5
      vy := vy1 * (-0.4)
      vx := v1.vx * 0.8
      vz := v1.vz * 0.8
      rvx := v1.rvx * 0.8
      rvy := v1.rvy * 0.8
      rvz := v1.rvz * 0.8 }
  else v1

/-- One `DISMANTLING` tick for one particle: skipped entirely while the
stagger delay has not elapsed; otherwise the optional hand attraction
followed by integration and the floor bounce. -/
noncomputable def dismantleTickVoxel (elapsed : ℝ) (isHandActive : Bool)
    (attractor : Option Vec3) (now : ℝ) (v : SimulationVoxel) :
    SimulationVoxel :=
  if elapsed < v.dismantleDelay then v
  else
    let v1 := match attractor with
      | some hp => if isHandActive then handAttract now hp v else v
      | none => v
    integrateVoxel v1

/-- The squared distance between a particle's position and its rebuild
target, as checked by the completion test of `VoxelEngine.updatePhysics`
(computed after the tick's interpolation step). -/
noncomputable def sqDistToTarget (v : SimulationVoxel) (t : RebuildTarget) :
    ℝ :=
  (t.x - v.x) ^ 2 + (t.y - v.y) ^ 2 + (t.z - v.z) ^ 2

/-- The `REBUILDING` interpolation step: position moves 25% of the remaining
distance toward the target and rotation 25% of the way back to zero.
Velocities are not consulted and not modified. -/
noncomputable def rebuildLerp (v : SimulationVoxel) (t : RebuildTarget) :
    SimulationVoxel :=
  { v with
    x := v.x + (t.x - v.x) * 0.25
    y := v.y + (t.y - v.y) * 0.25
    z := v.z + (t.z - v.z) * 0.25
    rx := v.rx + (0 - v.rx) * 0.25
    ry := v.ry + (0 - v.ry) * 0.25
    rz := v.rz + (0 - v.rz) * 0.25 }

/-- One `REBUILDING` tick for one particle/target pair.  The returned flag is
this particle's contribution to the `allDone` completion check: `true` when
the particle does not block completion (rubble, or snapped this tick).
Rubble is skipped entirely; a particle whose flight delay has not elapsed
blocks completion and is skipped; otherwise the particle is interpolated and,
when the post-move squared distance is no longer above 0.01, snapped exactly
onto the target with zero rotation. -/
noncomputable def rebuildTickPair (elapsed : ℝ)
    (vt : SimulationVoxel × RebuildTarget) : SimulationVoxel × Bool :=
  let v := vt.1
  let t := vt.2
  if t.isRubble then (v, true)
  else if elapsed < t.delay then (v, false)
  else
    let v1 := rebuildLerp v t
    if sqDistToTarget v1 t > 0.01 then (v1, false)
    else
      ({ v1 with x := t.x, y := t.y, z := t.z, rx := 0, ry := 0, rz := 0 },
        true)

/-- The mutable fields of the `VoxelEngine` class that the physics tick and
the state machine read and write. -/
structure Engine where
  state : AppState
  voxels : List SimulationVoxel
  rebuildTargets : List RebuildTarget
  rebuildStartTime : ℝ
  dismantleStartTime : ℝ
  handAttractor : Option Vec3
  lastHandUpdate : ℝ

/-- `VoxelEngine.updatePhysics`, one tick at wall-clock time `now`.
While `DISMANTLING` every particle receives `dismantleTickVoxel`; while
`REBUILDING` every particle/target pair receives `rebuildTickPair` and the
state moves to `STABLE` exactly when no pair blocks completion; while
`STABLE` nothing happens.  (The engine maintains
`rebuildTargets.length = voxels.length` whenever `REBUILDING` is entered;
the pairing below walks the two lists in lockstep just as the source indexes
`rebuildTargets[i]` for voxel `i`.) -/
noncomputable def updatePhysics (e : Engine) (now : ℝ) : Engine :=
  match e.state with
  | AppState.DISMANTLING =>
    let elapsed := now - e.dismantleStartTime
    let isHandActive := decide (now - e.lastHandUpdate < 300)
    { e with
      voxels := e.voxels.map
        (dismantleTickVoxel elapsed isHandActive e.handAttractor now) }
  | AppState.REBUILDING =>
    let elapsed := now - e.rebuildStartTime
    let results :=
      (e.voxels.zip e.rebuildTargets).map (rebuildTickPair elapsed)
    let allDone := results.all Prod.snd
    { e with
      voxels := results.map Prod.fst
      state := if allDone then AppState.STABLE else AppState.REBUILDING }
  | AppState.STABLE => e

theorem integrateVoxel_floor (v : SimulationVoxel) :
    FLOOR_Y + 0.5 ≤ (integrateVoxel v).y := by
  unfold integrateVoxel
  dsimp only
  split_ifs with h
  · exact le_refl _
  · simpa using le_of_not_lt h

theorem dismantleTickVoxel_floor (elapsed : ℝ) (isHandActive : Bool)
    (attractor : Option Vec3) (now : ℝ) (v : SimulationVoxel)
    (h : ¬ elapsed < v.dismantleDelay) :
    FLOOR_Y + 0.5 ≤
      (dismantleTickVoxel elapsed isHandActive attractor now v).y := by
  unfold dismantleTickVoxel
  rw [if_neg h]
  exact integrateVoxel_floor _

theorem dismantleTickVoxel_preserves_floor (elapsed : ℝ)
    (isHandActive : Bool) (attractor : Option Vec3) (now : ℝ)
    (v : SimulationVoxel) (hv : FLOOR_Y + 0.5 ≤ v.y) :
    FLOOR_Y + 0.5 ≤
      (dismantleTickVoxel elapsed isHandActive attractor now v).y := by
  unfold dismantleTickVoxel
  by_cases h : elapsed < v.dismantleDelay
  · rw [if_pos h]
    exact hv
  · rw [if_neg h]
    exact integrateVoxel_floor _

/-- A particle resting below the floor plane, still waiting on a large
stagger delay. -/
def sunkParticle : SimulationVoxel :=
  { restParticle with y := -10, dismantleDelay := 1000 }

/-- A dismantling engine holding only `sunkParticle`, one tick after the
dismantle started. -/
def sunkEngine : Engine :=
  { state := AppState.DISMANTLING
    voxels := [sunkParticle]
    rebuildTargets := []
    rebuildStartTime := 0
    dismantleStartTime := 0
    handAttractor := none
    lastHandUpdate := -1000 }

/-- Claim C5 (counterexample): the floor bound does NOT hold for every
particle on every `Dismantling` tick.  A particle whose stagger delay has
not yet elapsed is skipped entirely by the tick, so a store holding a
particle at height −10 (e.g. loaded from imported JSON) still has that
particle at −10 — below `FLOOR_Y + 0.5` — after the tick. -/
theorem dismantling_floor_counterexample :
    (updatePhysics sunkEngine 0).voxels.map SimulationVoxel.y = [-10] ∧
      (-10 : ℝ) < FLOOR_Y + 0.5 := by
  constructor
  · show (updatePhysics sunkEngine 0).voxels.map SimulationVoxel.y = [-10]
    simp only [updatePhysics, sunkEngine]
    rw [List.map_cons, List.map_cons, List.map_nil]
    unfold dismantleTickVoxel
    rw [if_pos]
    · rfl
    · show (0 : ℝ) - 0 < sunkParticle.dismantleDelay
      rw [show sunkParticle.dismantleDelay = 1000 from rfl]
      norm_num
  · rw [FLOOR_Y]
    norm_num

/-- Claim C5 (amended): during `Dismantling` the tick can never move a
particle below `FLOOR_Y + 0.5` — every particle whose stagger delay has
elapsed (i.e. every particle the integrator actually moves) ends the tick at
height at least `FLOOR_Y + 0.5` unconditionally, and if every particle
starts the tick at height at least `FLOOR_Y + 0.5` then every particle also
ends it there.  (A particle still waiting on its delay keeps its previous
height, so the unrestricted per-tick bound of the claim additionally needs
the store to start above the floor.) -/
theorem updatePhysics_dismantling_floor (e : Engine) (now : ℝ)
    (hstate : e.state = AppState.DISMANTLING) :
    (∀ v ∈ e.voxels, ¬(now - e.dismantleStartTime < v.dismantleDelay) →
      FLOOR_Y + 0.5 ≤
        (dismantleTickVoxel (now - e.dismantleStartTime)
          (decide (now - e.lastHandUpdate < 300)) e.handAttractor now v).y) ∧
    ((∀ v ∈ e.voxels, FLOOR_Y + 0.5 ≤ v.y) →
      ∀ w ∈ (updatePhysics e now).voxels, FLOOR_Y + 0.5 ≤ w.y) := by
  constructor
  · intro v _ hd
    exact dismantleTickVoxel_floor _ _ _ _ _ hd
  · intro hinv w hw
    simp only [updatePhysics, hstate] at hw
    obtain ⟨v, hv, rfl⟩ := List.mem_map.mp hw
    exact dismantleTickVoxel_preserves_floor _ _ _ _ _ (hinv v hv)

/-- Witness for `updatePhysics_dismantling_floor`: in a concrete
dismantling engine holding one particle at height 3 whose stagger delay 0
has elapsed, that particle ends the tick at height at least
`FLOOR_Y + 0.5`. -/
theorem updatePhysics_dismantling_floor_witness :
    FLOOR_Y + 0.5 ≤
      (dismantleTickVoxel ((5 : ℝ) - sunkEngine.dismantleStartTime)
        (decide ((5 : ℝ) - sunkEngine.lastHandUpdate < 300))
        sunkEngine.handAttractor 5 { restParticle with y := 3 }).y :=
  (updatePhysics_dismantling_floor
      { sunkEngine with voxels := [{ restParticle with y := 3 }] } 5
      rfl).1
    { restParticle with y := 3 }
    (List.mem_singleton.mpr rfl)
    (by
      show ¬((5 : ℝ) - sunkEngine.dismantleStartTime <
        ({ restParticle with y := 3 } : SimulationVoxel).dismantleDelay)
      rw [show ({ restParticle with y := 3 } :
          SimulationVoxel).dismantleDelay = 0 from rfl,
        show sunkEngine.dismantleStartTime = 0 from rfl]
      norm_num)

/-- A particle has snapped onto a rebuild target: its position equals the
target exactly and its rotation is exactly zero. -/
def snappedTo (v : SimulationVoxel) (t : RebuildTarget) : Prop :=
  v.x = t.x ∧ v.y = t.y ∧ v.z = t.z ∧ v.rx = 0 ∧ v.ry = 0 ∧ v.rz = 0

theorem rebuildTickPair_done (elapsed : ℝ)
    (vt : SimulationVoxel × RebuildTarget)
    (h : (rebuildTickPair elapsed vt).2 = true) :
    vt.2.isRubble = true ∨ snappedTo (rebuildTickPair elapsed vt).1 vt.2 := by
  unfold rebuildTickPair at h ⊢
  dsimp only at h ⊢
  by_cases h1 : vt.2.isRubble = true
  · exact Or.inl h1
  · rw [if_neg h1] at h ⊢
    by_cases h2 : elapsed < vt.2.delay
    · rw [if_pos h2] at h
      exact absurd h (by simp)
    · rw [if_neg h2] at h ⊢
      by_cases h3 : sqDistToTarget (rebuildLerp vt.1 vt.2) vt.2 > 0.01
      · rw [if_pos h3] at h
        exact absurd h (by simp)
      · rw [if_neg h3]
        exact Or.inr ⟨rfl, rfl, rfl, rfl, rfl, rfl⟩

/-- Claim C3: while `Rebuilding`, (i) if the tick moves the state to
`Stable` then every non-rubble pair of the store has snapped (position
exactly the target, rotation exactly zero); (ii) a non-rubble particle whose
flight delay has elapsed ends the tick snapped if and only if its post-move
squared distance to the target is at most the epsilon 0.01; and (iii) the
transition does not fire while some non-rubble particle is still waiting on
its flight delay or still farther than the epsilon from its target after the
move. -/
theorem updatePhysics_rebuilding_completion (e : Engine) (now : ℝ)
    (hstate : e.state = AppState.REBUILDING) :
    ((updatePhysics e now).state = AppState.STABLE →
      ∀ vt ∈ e.voxels.zip e.rebuildTargets, vt.2.isRubble = false →
        snappedTo (rebuildTickPair (now - e.rebuildStartTime) vt).1 vt.2) ∧
    (∀ vt ∈ e.voxels.zip e.rebuildTargets, vt.2.isRubble = false →
      ¬(now - e.rebuildStartTime < vt.2.delay) →
      (snappedTo (rebuildTickPair (now - e.rebuildStartTime) vt).1 vt.2 ↔
        sqDistToTarget (rebuildLerp vt.1 vt.2) vt.2 ≤ 0.01)) ∧
    ((∃ vt ∈ e.voxels.zip e.rebuildTargets, vt.2.isRubble = false ∧
        (now - e.rebuildStartTime < vt.2.delay ∨
          0.01 < sqDistToTarget (rebuildLerp vt.1 vt.2) vt.2)) →
      (updatePhysics e now).state = AppState.REBUILDING) := by
  refine ⟨?_, ?_, ?_⟩
  · intro hst vt hvt hrub
    simp only [updatePhysics, hstate] at hst
    by_cases hall :
      ((e.voxels.zip e.rebuildTargets).map
        (rebuildTickPair (now - e.rebuildStartTime))).all Prod.snd = true
    · have hmem : rebuildTickPair (now - e.rebuildStartTime) vt ∈
          (e.voxels.zip e.rebuildTargets).map
            (rebuildTickPair (now - e.rebuildStartTime)) :=
        List.mem_map_of_mem _ hvt
      have hdone := (List.all_eq_true.mp hall) _ hmem
      rcases rebuildTickPair_done _ _ hdone with h | h
      · rw [hrub] at h
        exact absurd h (by simp)
      · exact h
    · rw [if_neg hall] at hst
      exact absurd hst (by simp)
  · intro vt _ hrub hdel
    unfold rebuildTickPair
    rw [if_neg (by rw [hrub]; simp), if_neg hdel]
    dsimp only
    split_ifs with hfar
    · constructor
      · intro hsnap
        obtain ⟨hx, hy, hz, _, _, _⟩ := hsnap
        have : sqDistToTarget (rebuildLerp vt.1 vt.2) vt.2 = 0 := by
          unfold sqDistToTarget
          rw [hx, hy, hz]
          ring
        linarith
      · intro hle
        linarith
    · constructor
      · intro _
        linarith [not_lt.mp hfar]
      · intro _
        exact ⟨rfl, rfl, rfl, rfl, rfl, rfl⟩
  · intro ⟨vt, hvt, hrub, hblock⟩
    simp only [updatePhysics, hstate]
    rw [if_neg]
    intro hall
    have hmem : rebuildTickPair (now - e.rebuildStartTime) vt ∈
        (e.voxels.zip e.rebuildTargets).map
          (rebuildTickPair (now - e.rebuildStartTime)) :=
      List.mem_map_of_mem _ hvt
    have hdone := (List.all_eq_true.mp hall) _ hmem
    unfold rebuildTickPair at hdone
    rw [if_neg (by rw [hrub]; simp)] at hdone
    rcases hblock with hdel | hfar
    · rw [if_pos hdel] at hdone
      exact absurd hdone (by simp)
    · by_cases hdel : now - e.rebuildStartTime < vt.2.delay
      · rw [if_pos hdel] at hdone
        exact absurd hdone (by simp)
      · rw [if_neg hdel] at hdone
        dsimp only at hdone
        rw [if_pos hfar] at hdone
        exact absurd hdone (by simp)

/-- A concrete non-rubble rebuild target at the origin with flight delay 0. -/
def restTarget : RebuildTarget :=
  { x := 0, y := 0, z := 0, delay := 0, isRubble := false }

/-- A rebuilding engine holding `restParticle`, already exactly on
`restTarget`. -/
def rebuildingEngine : Engine :=
  { state := AppState.REBUILDING
    voxels := [restParticle]
    rebuildTargets := [restTarget]
    rebuildStartTime := 0
    dismantleStartTime := 0
    handAttractor := none
    lastHandUpdate := -1000 }

/-- Witness for `updatePhysics_rebuilding_completion`: for the concrete pair
of `restParticle` (at the origin) and `restTarget` (the origin, delay 0,
non-rubble) with elapsed time 5, the hypotheses hold and the particle is
snapped after the tick, since its post-move squared distance 0 is within the
epsilon. -/
theorem updatePhysics_rebuilding_completion_witness :
    snappedTo (rebuildTickPair ((5 : ℝ) - rebuildingEngine.rebuildStartTime)
      (restParticle, restTarget)).1 restTarget :=
  ((updatePhysics_rebuilding_completion rebuildingEngine 5 rfl).2.1
      (restParticle, restTarget)
      (by
        show (restParticle, restTarget) ∈
          List.zip [restParticle] [restTarget]
        simp)
      rfl
      (by
        show ¬((5 : ℝ) - rebuildingEngine.rebuildStartTime <
          restTarget.delay)
        rw [show restTarget.delay = 0 from rfl,
          show rebuildingEngine.rebuildStartTime = 0 from rfl]
        norm_num)).mpr
    (by
      show sqDistToTarget (rebuildLerp restParticle restTarget)
        restTarget ≤ 0.01
      unfold sqDistToTarget rebuildLerp
      rw [show restParticle.x = 0 from rfl, show restParticle.y = 0 from rfl,
        show restParticle.z = 0 from rfl, show restTarget.x = 0 from rfl,
        show restTarget.y = 0 from rfl, show restTarget.z = 0 from rfl]
      norm_num)

/-- Claim C10: while `Rebuilding`, the tick maps each particle/target pair
through `rebuildTickPair` (no gravity term appears anywhere in that path);
a rubble particle, or a particle whose flight delay has not elapsed, comes
out of the tick entirely unchanged — position, rotation, velocity and
angular velocity; and no particle's velocity or angular velocity is ever
read or written by the rebuilding tick. -/
theorem updatePhysics_rebuilding_frame (e : Engine) (now : ℝ)
    (hstate : e.state = AppState.REBUILDING) :
    ((updatePhysics e now).voxels = (e.voxels.zip e.rebuildTargets).map
      (fun vt => (rebuildTickPair (now - e.rebuildStartTime) vt).1)) ∧
    (∀ vt ∈ e.voxels.zip e.rebuildTargets,
      vt.2.isRubble = true ∨ now - e.rebuildStartTime < vt.2.delay →
      (rebuildTickPair (now - e.rebuildStartTime) vt).1 = vt.1) ∧
    (∀ vt ∈ e.voxels.zip e.rebuildTargets,
      ((rebuildTickPair (now - e.rebuildStartTime) vt).1.vx = vt.1.vx ∧
       (rebuildTickPair (now - e.rebuildStartTime) vt).1.vy = vt.1.vy ∧
       (rebuildTickPair (now - e.rebuildStartTime) vt).1.vz = vt.1.vz) ∧
      ((rebuildTickPair (now - e.rebuildStartTime) vt).1.rvx = vt.1.rvx ∧
       (rebuildTickPair (now - e.rebuildStartTime) vt).1.rvy = vt.1.rvy ∧
       (rebuildTickPair (now - e.rebuildStartTime) vt).1.rvz = vt.1.rvz)) := by
  refine ⟨?_, ?_, ?_⟩
  · simp only [updatePhysics, hstate]
    rw [List.map_map]
    rfl
  · intro vt _ hskip
    unfold rebuildTickPair
    dsimp only
    rcases hskip with hrub | hdel
    · rw [if_pos hrub]
    · by_cases hrub : vt.2.isRubble = true
      · rw [if_pos hrub]
      · rw [if_neg hrub, if_pos hdel]
  · intro vt _
    unfold rebuildTickPair
    dsimp only
    by_cases h1 : vt.2.isRubble = true
    · rw [if_pos h1]
      exact ⟨⟨rfl, rfl, rfl⟩, rfl, rfl, rfl⟩
    · rw [if_neg h1]
      by_cases h2 : now - e.rebuildStartTime < vt.2.delay
      · rw [if_pos h2]
        exact ⟨⟨rfl, rfl, rfl⟩, rfl, rfl, rfl⟩
      · rw [if_neg h2]
        by_cases h3 :
            sqDistToTarget (rebuildLerp vt.1 vt.2) vt.2 > 0.01
        · rw [if_pos h3]
          exact ⟨⟨rfl, rfl, rfl⟩, rfl, rfl, rfl⟩
        · rw [if_neg h3]
          exact ⟨⟨rfl, rfl, rfl⟩, rfl, rfl, rfl⟩

/-- Witness for `updatePhysics_rebuilding_frame`: for a concrete rebuilding
engine whose single target is rubble, the particle comes out of the tick
unchanged. -/
theorem updatePhysics_rebuilding_frame_witness :
    (rebuildTickPair ((5 : ℝ) - rebuildingEngine.rebuildStartTime)
      (restParticle, { restTarget with isRubble := true })).1 =
      restParticle :=
  (updatePhysics_rebuilding_frame
      { rebuildingEngine with
        rebuildTargets := [{ restTarget with isRubble := true }] } 5
      rfl).2.1
    (restParticle, { restTarget with isRubble := true })
    (by
      show (restParticle, ({ restTarget with isRubble := true } :
          RebuildTarget)) ∈
        List.zip [restParticle] [{ restTarget with isRubble := true }]
      simp)
    (Or.inl rfl)

/-- `new THREE.Color(hex)` for a 24-bit integer: the three bytes scaled to
[0, 1]. -/
noncomputable def colorOfHex (hex : ℕ) : ColorRGB :=
  ⟨((hex / 65536 % 256 : ℕ) : ℝ) / 255,
   ((hex / 256 % 256 : ℕ) : ℝ) / 255,
   ((hex % 256 : ℕ) : ℝ) / 255⟩

/-- `VoxelEngine.getColorDist`: the luminance-weighted RGB distance between
a particle color and a 24-bit target color (weights 0.3 / 0.59 / 0.11). -/
noncomputable def getColorDist (c1 : ColorRGB) (hex2 : ℕ) : ℝ :=
  let c2 := colorOfHex hex2
  let r := (c1.r - c2.r) * 0.3
  let g := (c1.g - c2.g) * 0.59
  let b := (c1.b - c2.b) * 0.11
  Real.sqrt (r * r + g * g + b * b)

/-- The "organic" classification of a particle color in
`VoxelEngine.rebuild`: green-dominant, or very dark reddish-brown
(foliage/wood-like). -/
def isLeafOrWood (c : ColorRGB) : Prop :=
  0.4 < c.g ∨ (c.r < 0.25 ∧ c.b < 0.25)

/-- Whether a target voxel's color is the green or the wood palette
constant (`target.color === COLORS.GREEN || target.color === COLORS.WOOD`). -/
def targetIsGreen (t : VoxelData) : Prop :=
  t.color = GREEN ∨ t.color = WOOD

/-- The fixed mismatch penalty of `VoxelEngine.rebuild`: 100 when an
organic-looking particle would be used for a non-organic target, else 0. -/
noncomputable def matchPenalty (c : ColorRGB) (t : VoxelData) : ℝ :=
  if isLeafOrWood c ∧ ¬targetIsGreen t then 100 else 0

/-- The inner scan of `VoxelEngine.rebuild` over the `available` list
(entries are color and `taken` flag, listed positionally): skip taken
entries; for each untaken entry compare `distance + penalty` against the
best so far (initially 9999), updating the best index, and break early —
returning the just-recorded index — on a near-perfect match
(`distance < 0.01`).  `i` is the absolute index of the head of the remaining
list, `best` the best index recorded so far (`none` models `bestIdx = -1`). -/
noncomputable def findBestAux (t : VoxelData) :
    List (ColorRGB × Bool) → ℕ → ℝ → Option ℕ → Option ℕ
  | [], _, _, best => best
  | (c, taken) :: rest, i, bestDist, best =>
    if taken then findBestAux t rest (i + 1) bestDist best
    else
      let d := getColorDist c t.color
      let p := matchPenalty c t
      if d + p < bestDist then
        if d < 0.01 then some i
        else findBestAux t rest (i + 1) (d + p) (some i)
      else findBestAux t rest (i + 1) bestDist best

/-- The scan for one target over the whole `available` list, starting from
`bestDist = 9999` and no recorded index. -/
noncomputable def findBest (t : VoxelData) (avail : List (ColorRGB × Bool)) :
    Option ℕ :=
  findBestAux t avail 0 9999 none

/-- `available[j].taken = true` (all other entries unchanged). -/
def markTaken : List (ColorRGB × Bool) → ℕ → List (ColorRGB × Bool)
  | [], _ => []
  | e :: rest, 0 => (e.1, true) :: rest
  | e :: rest, n + 1 => e :: markTaken rest n

/-- The destination record written for a matched target: position plus the
height-proportional flight delay
`max(0, (target.y − FLOOR_Y) / 15) * 300`. -/
noncomputable def mkMapping (t : VoxelData) : RebuildTarget :=
  { x := t.x, y := t.y, z := t.z
    delay := max 0 ((t.y - FLOOR_Y) / 15) * 300
    isRubble := false }

/-- The matcher's working state: the `available` flags and the (positional)
`mappings` array, `none` marking a still-unmatched particle. -/
structure MatchState where
  avail : List (ColorRGB × Bool)
  mappings : List (Option RebuildTarget)

/-- Processing of one target voxel in `VoxelEngine.rebuild`: scan for the
best untaken particle; if one exists, mark it taken and record its
destination, otherwise change nothing. -/
noncomputable def matchTarget (st : MatchState) (t : VoxelData) :
    MatchState :=
  match findBest t st.avail with
  | none => st
  | some j => ⟨markTaken st.avail j, st.mappings.set j (some (mkMapping t))⟩

/-- The greedy color-matching pass of `VoxelEngine.rebuild`: all targets in
input order against an initially all-untaken, all-unmatched state built from
the particle store. -/
noncomputable def runMatch (targets : List VoxelData)
    (voxels : List SimulationVoxel) : MatchState :=
  targets.foldl matchTarget
    ⟨voxels.map fun v => (v.color, false), voxels.map fun _ => none⟩

/-- The final `rebuildTargets` array of `VoxelEngine.rebuild`: matched
particles keep their recorded destination, every unmatched particle becomes
rubble frozen at its current position with delay 0. -/
noncomputable def rebuildMappings (targets : List VoxelData)
    (voxels : List SimulationVoxel) : List RebuildTarget :=
  ((runMatch targets voxels).mappings.zip voxels).map fun mv =>
    mv.1.getD { x := mv.2.x, y := mv.2.y, z := mv.2.z
                delay := 0, isRubble := true }

/-- `VoxelEngine.rebuild`: rejected while already `REBUILDING`; otherwise
installs the matcher output, records the start time and enters
`REBUILDING`. -/
noncomputable def rebuild (e : Engine) (targetModel : List VoxelData)
    (now : ℝ) : Engine :=
  if e.state = AppState.REBUILDING then e
  else
    { e with
      rebuildTargets := rebuildMappings targetModel e.voxels
      rebuildStartTime := now
      state := AppState.REBUILDING }

/-- A color whose three components lie in [0, 1] — every color a
`THREE.Color` can hold. -/
def colorBounded (c : ColorRGB) : Prop :=
  0 ≤ c.r ∧ c.r ≤ 1 ∧ 0 ≤ c.g ∧ c.g ≤ 1 ∧ 0 ≤ c.b ∧ c.b ≤ 1

/-- The fallback entry used to totalize positional lookups into the
`available` list. -/
noncomputable def defaultEntry : ColorRGB × Bool := (⟨0, 0, 0⟩, false)

theorem byte_div_le_one (n : ℕ) : ((n % 256 : ℕ) : ℝ) / 255 ≤ 1 := by
  rw [div_le_one (by norm_num)]
  have h : (n % 256 : ℕ) ≤ 255 := Nat.le_of_lt_succ (Nat.mod_lt n (by norm_num))
  calc ((n % 256 : ℕ) : ℝ) ≤ 255 := by exact_mod_cast h
    _ = 255 := rfl

theorem colorOfHex_bounded (hex : ℕ) : colorBounded (colorOfHex hex) := by
  unfold colorBounded colorOfHex
  refine ⟨by positivity, byte_div_le_one _, by positivity, byte_div_le_one _,
    by positivity, byte_div_le_one _⟩

theorem getColorDist_nonneg (c : ColorRGB) (hex : ℕ) :
    0 ≤ getColorDist c hex := Real.sqrt_nonneg _

theorem getColorDist_lt_one {c : ColorRGB} (hb : colorBounded c) (hex : ℕ) :
    getColorDist c hex < 1 := by
  obtain ⟨h1, h2, h3, h4, h5, h6⟩ := hb
  obtain ⟨g1, g2, g3, g4, g5, g6⟩ := colorOfHex_bounded hex
  unfold getColorDist
  rw [Real.sqrt_lt' one_pos]
  set c2 := colorOfHex hex
  nlinarith [sq_nonneg (c.r - c2.r), sq_nonneg (c.g - c2.g),
    sq_nonneg (c.b - c2.b)]

theorem matchPenalty_bounds (c : ColorRGB) (t : VoxelData) :
    0 ≤ matchPenalty c t ∧ matchPenalty c t ≤ 100 := by
  unfold matchPenalty
  split_ifs <;> norm_num

theorem findBestAux_some_of_some (t : VoxelData) :
    ∀ (l : List (ColorRGB × Bool)) (i0 : ℕ) (bd : ℝ) (k : ℕ),
      (findBestAux t l i0 bd (some k)).isSome = true := by
  intro l
  induction l with
  | nil => intro i0 bd k; rfl
  | cons e rest ih =>
    intro i0 bd k
    obtain ⟨c, tk⟩ := e
    cases tk with
    | true => simpa only [findBestAux, if_true] using ih (i0 + 1) bd k
    | false =>
      simp only [findBestAux, Bool.false_eq_true, if_false]
      split_ifs with h1 h2
      · rfl
      · exact ih (i0 + 1) _ i0
      · exact ih (i0 + 1) bd k

theorem findBestAux_none_no_candidate (t : VoxelData) :
    ∀ (l : List (ColorRGB × Bool)) (i0 : ℕ) (bd : ℝ),
      findBestAux t l i0 bd none = none →
      ∀ e ∈ l, e.2 = true ∨
        ¬(getColorDist e.1 t.color + matchPenalty e.1 t < bd) := by
  intro l
  induction l with
  | nil => intro i0 bd _ e he; simp at he
  | cons hd rest ih =>
    intro i0 bd hnone e he
    obtain ⟨c, tk⟩ := hd
    cases tk with
    | true =>
      simp only [findBestAux, if_true] at hnone
      rcases List.mem_cons.mp he with rfl | hmem
      · exact Or.inl rfl
      · exact ih (i0 + 1) bd hnone e hmem
    | false =>
      simp only [findBestAux, Bool.false_eq_true, if_false] at hnone
      by_cases hlt : getColorDist c t.color + matchPenalty c t < bd
      · rw [if_pos hlt] at hnone
        by_cases hperf : getColorDist c t.color < 0.01
        · rw [if_pos hperf] at hnone
          exact absurd hnone (by simp)
        · rw [if_neg hperf] at hnone
          have := findBestAux_some_of_some t rest (i0 + 1)
            (getColorDist c t.color + matchPenalty c t) i0
          rw [hnone] at this
          exact absurd this (by simp)
      · rw [if_neg hlt] at hnone
        rcases List.mem_cons.mp he with rfl | hmem
        · exact Or.inr hlt
        · exact ih (i0 + 1) bd hnone e hmem

theorem findBest_isSome_of_untaken (t : VoxelData)
    (avail : List (ColorRGB × Bool)) {c : ColorRGB}
    (hb : colorBounded c) (hmem : (c, false) ∈ avail) :
    (findBest t avail).isSome = true := by
  rw [Option.isSome_iff_exists]
  cases hfb : findBest t avail with
  | some j => exact ⟨j, rfl⟩
  | none =>
    exfalso
    have := findBestAux_none_no_candidate t avail 0 9999 hfb (c, false) hmem
    rcases this with h | h
    · exact absurd h (by simp)
    · refine h ?_
      have h1 := getColorDist_lt_one hb t.color
      have h2 := (matchPenalty_bounds c t).2
      dsimp only at h1 h2 ⊢
      linarith

theorem findBestAux_some_pred (t : VoxelData) (Q : ℕ → Prop) :
    ∀ (l : List (ColorRGB × Bool)) (i0 : ℕ) (bd : ℝ) (best : Option ℕ)
      (j : ℕ),
      findBestAux t l i0 bd best = some j →
      (∀ k, best = some k → Q k) →
      (∀ m, m < l.length → (l.getD m defaultEntry).2 = false →
        Q (i0 + m)) →
      Q j := by
  intro l
  induction l with
  | nil =>
    intro i0 bd best j h hbest _
    exact hbest j h
  | cons hd rest ih =>
    intro i0 bd best j h hbest hm
    obtain ⟨c, tk⟩ := hd
    have hm' : ∀ m, m < rest.length →
        (rest.getD m defaultEntry).2 = false → Q (i0 + 1 + m) := by
      intro m hlt hunt
      have := hm (m + 1) (by simpa using Nat.succ_lt_succ hlt)
        (by simpa using hunt)
      have harith : i0 + (m + 1) = i0 + 1 + m := by omega
      rwa [harith] at this
    cases tk with
    | true =>
      simp only [findBestAux, if_true] at h
      exact ih (i0 + 1) bd best j h hbest hm'
    | false =>
      have hhead : Q i0 := by
        have := hm 0 (Nat.succ_pos _) rfl
        simpa using this
      simp only [findBestAux, Bool.false_eq_true, if_false] at h
      by_cases hlt : getColorDist c t.color + matchPenalty c t < bd
      · rw [if_pos hlt] at h
        by_cases hperf : getColorDist c t.color < 0.01
        · rw [if_pos hperf] at h
          obtain rfl : i0 = j := by simpa using h
          exact hhead
        · rw [if_neg hperf] at h
          refine ih (i0 + 1) _ (some i0) j h ?_ hm'
          intro k hk
          obtain rfl : i0 = k := by simpa using hk
          exact hhead
      · rw [if_neg hlt] at h
        exact ih (i0 + 1) bd best j h hbest hm'

theorem findBest_some_untaken (t : VoxelData)
    (avail : List (ColorRGB × Bool)) (j : ℕ)
    (h : findBest t avail = some j) :
    j < avail.length ∧ (avail.getD j defaultEntry).2 = false := by
  refine findBestAux_some_pred t
    (fun j => j < avail.length ∧ (avail.getD j defaultEntry).2 = false)
    avail 0 9999 none j h (by intro k hk; cases hk) ?_
  intro m hlt hunt
  rw [Nat.zero_add]
  exact ⟨hlt, hunt⟩

theorem findBestAux_all_taken (t : VoxelData) :
    ∀ (l : List (ColorRGB × Bool)) (i0 : ℕ) (bd : ℝ) (best : Option ℕ),
      (∀ e ∈ l, e.2 = true) → findBestAux t l i0 bd best = best := by
  intro l
  induction l with
  | nil => intro i0 bd best _; rfl
  | cons hd rest ih =>
    intro i0 bd best hall
    obtain ⟨c, tk⟩ := hd
    have hhd : tk = true := hall (c, tk) (List.mem_cons_self _ _)
    subst hhd
    simp only [findBestAux, if_true]
    exact ih (i0 + 1) bd best fun e he => hall e (List.mem_cons_of_mem _ he)

theorem markTaken_length (l : List (ColorRGB × Bool)) (j : ℕ) :
    (markTaken l j).length = l.length := by
  induction l generalizing j with
  | nil => rfl
  | cons e rest ih =>
    cases j with
    | zero => rfl
    | succ n => simpa [markTaken] using ih n

theorem markTaken_map_fst (l : List (ColorRGB × Bool)) (j : ℕ) :
    (markTaken l j).map Prod.fst = l.map Prod.fst := by
  induction l generalizing j with
  | nil => rfl
  | cons e rest ih =>
    cases j with
    | zero => rfl
    | succ n => simpa [markTaken] using ih n

theorem markTaken_getD_self (l : List (ColorRGB × Bool)) (j : ℕ)
    (hj : j < l.length) :
    (markTaken l j).getD j defaultEntry =
      ((l.getD j defaultEntry).1, true) := by
  induction l generalizing j with
  | nil => simp at hj
  | cons e rest ih =>
    cases j with
    | zero => rfl
    | succ n => simpa [markTaken] using ih n (Nat.lt_of_succ_lt_succ hj)

theorem markTaken_getD_ne (l : List (ColorRGB × Bool)) (j m : ℕ)
    (hne : m ≠ j) :
    (markTaken l j).getD m defaultEntry = l.getD m defaultEntry := by
  induction l generalizing j m with
  | nil => rfl
  | cons e rest ih =>
    cases j with
    | zero =>
      cases m with
      | zero => exact absurd rfl hne
      | succ k => rfl
    | succ n =>
      cases m with
      | zero => rfl
      | succ k =>
        simpa [markTaken] using ih n k fun h => hne (by rw [h])

theorem markTaken_countP (l : List (ColorRGB × Bool)) (j : ℕ)
    (hj : j < l.length) (hunt : (l.getD j defaultEntry).2 = false) :
    (markTaken l j).countP (fun e => e.2) =
      l.countP (fun e => e.2) + 1 := by
  induction l generalizing j with
  | nil => simp at hj
  | cons e rest ih =>
    cases j with
    | zero =>
      have he : e.2 = false := hunt
      show ((e.1, true) :: rest).countP (fun e => e.2) = _
      rw [List.countP_cons, List.countP_cons, he]
      simp
    | succ n =>
      show (e :: markTaken rest n).countP (fun e => e.2) = _
      rw [List.countP_cons, List.countP_cons,
        ih n (Nat.lt_of_succ_lt_succ hj) hunt]
      omega

theorem set_some_countP (l : List (Option RebuildTarget)) (j : ℕ)
    (t : RebuildTarget) (hj : j < l.length) (hnone : l.getD j none = none) :
    (l.set j (some t)).countP Option.isSome =
      l.countP Option.isSome + 1 := by
  induction l generalizing j with
  | nil => simp at hj
  | cons e rest ih =>
    cases j with
    | zero =>
      have he : e = none := hnone
      rw [List.set]
      rw [List.countP_cons, List.countP_cons, he]
      simp
    | succ n =>
      rw [List.set]
      rw [List.countP_cons, List.countP_cons,
        ih n (Nat.lt_of_succ_lt_succ hj) hnone]
      omega

theorem set_getD_self (l : List (Option RebuildTarget)) (j : ℕ)
    (t : Option RebuildTarget) (hj : j < l.length) :
    (l.set j t).getD j none = t := by
  rw [List.getD_eq_getElem _ _ (by rw [List.length_set]; exact hj)]
  exact List.getElem_set_self _

theorem set_getD_ne (l : List (Option RebuildTarget)) (j m : ℕ)
    (t : Option RebuildTarget) (hne : m ≠ j) :
    (l.set j t).getD m none = l.getD m none := by
  by_cases hm : m < l.length
  · rw [List.getD_eq_getElem _ _ (by rw [List.length_set]; exact hm),
      List.getD_eq_getElem _ _ hm]
    exact List.getElem_set_ne (fun h => hne h.symm) _
  · rw [List.getD_eq_default _ _ (by rw [List.length_set]; omega),
      List.getD_eq_default _ _ (by omega)]

theorem countP_lt_exists_untaken (l : List (ColorRGB × Bool))
    (h : l.countP (fun e => e.2) < l.length) :
    ∃ m, m < l.length ∧ (l.getD m defaultEntry).2 = false := by
  by_contra hno
  push_neg at hno
  have : l.countP (fun e => e.2) = l.length := by
    rw [List.countP_eq_length]
    intro a ha
    obtain ⟨m, hm, hget⟩ := List.mem_iff_getElem.mp ha
    have := hno m hm
    rw [List.getD_eq_getElem _ _ hm, hget] at this
    simpa using this
  omega

/-- The invariant the matcher maintains over its working state: lengths
match the store, the colors of the `available` list are exactly the
particle colors, an entry is matched exactly when it is taken, the matched
count equals the taken count, and no recorded mapping is rubble. -/
def MatchInv (voxels : List SimulationVoxel) (st : MatchState) : Prop :=
  st.avail.length = voxels.length ∧
  st.mappings.length = voxels.length ∧
  st.avail.map Prod.fst = voxels.map SimulationVoxel.color ∧
  (∀ m, m < voxels.length →
    ((st.mappings.getD m none).isSome = true ↔
      (st.avail.getD m defaultEntry).2 = true)) ∧
  st.mappings.countP Option.isSome = st.avail.countP (fun e => e.2) ∧
  (∀ t', some t' ∈ st.mappings → t'.isRubble = false)

theorem matchTarget_inv {voxels : List SimulationVoxel} {st : MatchState}
    (hinv : MatchInv voxels st) (t : VoxelData) :
    MatchInv voxels (matchTarget st t) := by
  obtain ⟨hlA, hlM, hfst, hiff, hcnt, hrub⟩ := hinv
  unfold matchTarget
  cases hfb : findBest t st.avail with
  | none => exact ⟨hlA, hlM, hfst, hiff, hcnt, hrub⟩
  | some j =>
    obtain ⟨hj, hunt⟩ := findBest_some_untaken t st.avail j hfb
    have hjv : j < voxels.length := hlA ▸ hj
    have hmapnone : st.mappings.getD j none = none := by
      have := hiff j hjv
      rw [hunt] at this
      rcases hmm : st.mappings.getD j none with _ | t'
      · rfl
      · exfalso
        have : (some t').isSome = true ↔ False := by
          rw [← hmm]
          simpa using this
        simp at this
    refine ⟨?_, ?_, ?_, ?_, ?_, ?_⟩
    · rw [markTaken_length]; exact hlA
    · rw [List.length_set]; exact hlM
    · rw [markTaken_map_fst]; exact hfst
    · intro m hm
      by_cases hmj : m = j
      · subst hmj
        rw [set_getD_self _ _ _ (hlM ▸ hm), markTaken_getD_self _ _ hj]
        simp
      · rw [set_getD_ne _ _ _ _ hmj, markTaken_getD_ne _ _ _ hmj]
        exact hiff m hm
    · show (st.mappings.set j (some (mkMapping t))).countP Option.isSome =
        (markTaken st.avail j).countP (fun e => e.2)
      rw [set_some_countP _ _ _ (hlM ▸ hjv) hmapnone,
        markTaken_countP _ _ hj hunt, hcnt]
    · intro t' hmem
      rcases List.mem_or_eq_of_mem_set hmem with hmem' | heq
      · exact hrub t' hmem'
      · obtain rfl : t' = mkMapping t := by injection heq
        rfl

theorem runMatch_init_inv (voxels : List SimulationVoxel) :
    MatchInv voxels
      ⟨voxels.map fun v => (v.color, false), voxels.map fun _ => none⟩ := by
  refine ⟨List.length_map _ _, List.length_map _ _, ?_, ?_, ?_, ?_⟩
  · rw [List.map_map]
    rfl
  · intro m hm
    rw [List.getD_eq_getElem _ _ (by simpa using hm),
      List.getD_eq_getElem _ _ (by simpa using hm),
      List.getElem_map, List.getElem_map]
    simp
  · show (List.map (fun _ => (none : Option RebuildTarget)) voxels).countP
        Option.isSome =
      (List.map (fun v => (v.color, false)) voxels).countP fun e => e.2
    rw [List.countP_eq_zero.mpr, List.countP_eq_zero.mpr]
    · intro a ha
      obtain ⟨v, _, rfl⟩ := List.mem_map.mp ha
      simp
    · intro a ha
      obtain ⟨v, _, rfl⟩ := List.mem_map.mp ha
      simp
  · intro t' hmem
    obtain ⟨v, _, hv⟩ := List.mem_map.mp hmem
    cases hv

theorem foldl_matchTarget_count (voxels : List SimulationVoxel)
    (hcol : ∀ v ∈ voxels, colorBounded v.color) :
    ∀ (ts : List VoxelData) (st : MatchState), MatchInv voxels st →
      MatchInv voxels (ts.foldl matchTarget st) ∧
      (ts.foldl matchTarget st).avail.countP (fun e => e.2) =
        min (st.avail.countP (fun e => e.2) + ts.length) voxels.length := by
  intro ts
  induction ts with
  | nil =>
    intro st hinv
    refine ⟨hinv, ?_⟩
    have hle : st.avail.countP (fun e => e.2) ≤ voxels.length := by
      calc st.avail.countP (fun e => e.2) ≤ st.avail.length :=
            List.countP_le_length _
        _ = voxels.length := hinv.1
    simp [Nat.min_eq_left hle]
  | cons t ts ih =>
    intro st hinv
    obtain ⟨hlA, hlM, hfst, hiff, hcnt, hrub⟩ := hinv
    rw [List.foldl_cons]
    have hinv' : MatchInv voxels (matchTarget st t) :=
      matchTarget_inv ⟨hlA, hlM, hfst, hiff, hcnt, hrub⟩ t
    by_cases hlt : st.avail.countP (fun e => e.2) < voxels.length
    · obtain ⟨m, hm, hunt⟩ := countP_lt_exists_untaken st.avail
        (by rw [hlA]; exact hlt)
      have hmv : m < voxels.length := hlA ▸ hm
      have hc : (st.avail.getD m defaultEntry).1 =
          (voxels.get ⟨m, hmv⟩).color := by
        rw [List.getD_eq_getElem _ _ hm]
        have h1 : st.avail[m].1 = (st.avail.map Prod.fst).getD m ⟨0, 0, 0⟩ := by
          rw [List.getD_eq_getElem _ _ (by simpa using hm),
            List.getElem_map]
        rw [h1, hfst, List.getD_eq_getElem _ _ (by simpa using hmv),
          List.getElem_map, List.get_eq_getElem]
      have hbounded : colorBounded (st.avail.getD m defaultEntry).1 := by
        rw [hc]
        exact hcol _ (List.get_mem voxels _ hmv)
      have hmem : ((st.avail.getD m defaultEntry).1, false) ∈ st.avail := by
        have hpair : (st.avail.getD m defaultEntry) =
            ((st.avail.getD m defaultEntry).1, false) :=
          Prod.ext_iff.mpr ⟨rfl, hunt⟩
        rw [← hpair, List.getD_eq_getElem _ _ hm]
        exact List.getElem_mem hm
      have hsome := findBest_isSome_of_untaken t st.avail hbounded hmem
      obtain ⟨j, hfb⟩ := Option.isSome_iff_exists.mp hsome
      obtain ⟨hj, huntj⟩ := findBest_some_untaken t st.avail j hfb
      have hstep : matchTarget st t =
          ⟨markTaken st.avail j, st.mappings.set j (some (mkMapping t))⟩ := by
        unfold matchTarget
        rw [hfb]
      have hcnt' : (matchTarget st t).avail.countP (fun e => e.2) =
          st.avail.countP (fun e => e.2) + 1 := by
        rw [hstep]
        exact markTaken_countP st.avail j hj huntj
      obtain ⟨hinvf, hcountf⟩ := ih (matchTarget st t) hinv'
      refine ⟨hinvf, ?_⟩
      rw [hcountf, hcnt']
      have harith : st.avail.countP (fun e => e.2) + 1 + ts.length =
          st.avail.countP (fun e => e.2) + (t :: ts).length := by
        simp [List.length_cons]
        omega
      rw [harith]
    · have hle : st.avail.countP (fun e => e.2) ≤ voxels.length := by
        calc st.avail.countP (fun e => e.2) ≤ st.avail.length :=
              List.countP_le_length _
          _ = voxels.length := hlA
      have heq : st.avail.countP (fun e => e.2) = voxels.length := by omega
      have hall : ∀ e ∈ st.avail, e.2 = true :=
        List.countP_eq_length.mp (by rw [heq, hlA])
      have hnofb : findBest t st.avail = none :=
        findBestAux_all_taken t st.avail 0 9999 none hall
      have hstep : matchTarget st t = st := by
        unfold matchTarget
        rw [hnofb]
      rw [hstep]
      obtain ⟨hinvf, hcountf⟩ := ih st ⟨hlA, hlM, hfst, hiff, hcnt, hrub⟩
      refine ⟨hinvf, ?_⟩
      rw [hcountf, heq]
      rw [Nat.min_eq_right (Nat.le_add_right _ _),
        Nat.min_eq_right (Nat.le_add_right _ _)]

/-- Claim C2: after the rebuild matcher runs on a store whose particle
colors are in range (as every `THREE.Color` is), (i) the number of matched
(non-rubble) assignments equals `min(|targets|, |particles|)`; (ii) the
output records exactly one assignment per particle; (iii) every rubble
assignment records exactly the particle's current position; (iv) a rebuild
with zero targets marks every particle rubble; and (v) the scan only ever
returns a currently-untaken particle, so each particle's `taken` flag is set
at most once over the whole run. -/
theorem rebuild_matcher_correct (targets : List VoxelData)
    (voxels : List SimulationVoxel)
    (hcol : ∀ v ∈ voxels, colorBounded v.color) :
    ((rebuildMappings targets voxels).countP (fun o => !o.isRubble) =
      min targets.length voxels.length) ∧
    ((rebuildMappings targets voxels).length = voxels.length) ∧
    (∀ i, ∀ hi : i < voxels.length,
      ∀ ho : i < (rebuildMappings targets voxels).length,
      ((rebuildMappings targets voxels).get ⟨i, ho⟩).isRubble = true →
      ((rebuildMappings targets voxels).get ⟨i, ho⟩).x =
          (voxels.get ⟨i, hi⟩).x ∧
      ((rebuildMappings targets voxels).get ⟨i, ho⟩).y =
          (voxels.get ⟨i, hi⟩).y ∧
      ((rebuildMappings targets voxels).get ⟨i, ho⟩).z =
          (voxels.get ⟨i, hi⟩).z) ∧
    (targets = [] →
      ∀ o ∈ rebuildMappings targets voxels, o.isRubble = true) ∧
    (∀ (t : VoxelData) (avail : List (ColorRGB × Bool)) (j : ℕ),
      findBest t avail = some j →
      j < avail.length ∧ (avail.getD j defaultEntry).2 = false) := by
  obtain ⟨hinv, hcount⟩ := foldl_matchTarget_count voxels hcol targets
    ⟨voxels.map fun v => (v.color, false), voxels.map fun _ => none⟩
    (runMatch_init_inv voxels)
  have hrm : runMatch targets voxels = targets.foldl matchTarget
      ⟨voxels.map fun v => (v.color, false), voxels.map fun _ => none⟩ := rfl
  rw [← hrm] at hinv hcount
  have hzero : (voxels.map fun v => (v.color, false)).countP
      (fun e => e.2) = 0 := by
    rw [List.countP_eq_zero]
    intro a ha
    obtain ⟨v, _, rfl⟩ := List.mem_map.mp ha
    simp
  rw [hzero, Nat.zero_add] at hcount
  obtain ⟨hlA, hlM, hfst, hiff, hcnt, hrub⟩ := hinv
  have hlen : (rebuildMappings targets voxels).length = voxels.length := by
    unfold rebuildMappings
    rw [List.length_map, List.length_zip, hlM]
    exact min_self _
  refine ⟨?_, hlen, ?_, ?_, ?_⟩
  · unfold rebuildMappings
    rw [List.countP_map]
    have h1 : List.countP ((fun o => !o.isRubble) ∘
          fun mv : Option RebuildTarget × SimulationVoxel =>
            mv.1.getD { x := mv.2.x, y := mv.2.y, z := mv.2.z
                        delay := 0, isRubble := true })
          ((runMatch targets voxels).mappings.zip voxels) =
        List.countP (Option.isSome ∘ Prod.fst)
          ((runMatch targets voxels).mappings.zip voxels) := by
      apply List.countP_congr
      intro mv hmv
      obtain ⟨m, v⟩ := mv
      cases m with
      | none => simp
      | some t' =>
        have ht' := hrub t' (List.of_mem_zip hmv).1
        simp [ht']
    rw [h1, ← List.countP_map,
      List.map_fst_zip _ _ (le_of_eq hlM), hcnt, hcount]
  · intro i hi ho hr
    have hml : i < (runMatch targets voxels).mappings.length := by
      rw [hlM]
      exact hi
    have hgo : (rebuildMappings targets voxels).get ⟨i, ho⟩ =
        ((runMatch targets voxels).mappings[i]).getD
          { x := voxels[i].x, y := voxels[i].y, z := voxels[i].z
            delay := 0, isRubble := true } := by
      rw [List.get_eq_getElem]
      unfold rebuildMappings
      rw [List.getElem_map, List.getElem_zip]
    rcases hcase : (runMatch targets voxels).mappings[i] with _ | t'
    · rw [hgo, hcase]
      exact ⟨rfl, rfl, rfl⟩
    · exfalso
      have hfalse := hrub t' (by
        rw [← hcase]
        exact List.getElem_mem hml)
      rw [hgo, hcase] at hr
      rw [Option.getD_some] at hr
      rw [hfalse] at hr
      exact absurd hr (by simp)
  · intro h0 o hmem
    subst h0
    obtain ⟨mv, hmv, rfl⟩ := List.mem_map.mp hmem
    obtain ⟨m, v⟩ := mv
    have hm : m ∈ (runMatch ([] : List VoxelData) voxels).mappings :=
      (List.of_mem_zip hmv).1
    have hmnone : m = none := by
      obtain ⟨v', _, hv'⟩ := List.mem_map.mp hm
      exact hv'.symm
    subst hmnone
    rfl
  · exact fun t avail j h => findBest_some_untaken t avail j h

/-- A concrete pure-red target voxel at the origin. -/
def redTargetVoxel : VoxelData := ⟨0, 0, 0, 0xFF0000⟩

/-- Witness for `rebuild_matcher_correct`: for one red target and the single
red-colored `restParticle`, the color-boundedness hypothesis holds and the
matcher produces exactly `min 1 1 = 1` matched assignment. -/
theorem rebuild_matcher_correct_witness :
    (rebuildMappings [redTargetVoxel] [restParticle]).countP
      (fun o => !o.isRubble) = min 1 1 :=
  (rebuild_matcher_correct [redTargetVoxel] [restParticle]
    (by
      intro v hv
      rw [List.mem_singleton] at hv
      subst hv
      unfold colorBounded restParticle
      norm_num)).1

/-- JavaScript's `+x.toFixed(2)` on an (idealized, exact) number: round to
the nearest hundredth. -/
noncomputable def toFixed2 (x : ℝ) : ℝ := ((round (x * 100) : ℤ) : ℝ) / 100

/-- `THREE.Color.getHex` (the integer behind `getHexString`): each component
scaled to [0, 255], clamped and rounded, packed into 24 bits.  (Modelled
from the three.js library source, which the engine calls.) -/
noncomputable def colorGetHex (c : ColorRGB) : ℕ :=
  (round (max 0 (min (c.r * 255) 255))).toNat * 65536 +
    (round (max 0 (min (c.g * 255) 255))).toNat * 256 +
    (round (max 0 (min (c.b * 255) 255))).toNat

/-- One record of the exported JSON snapshot
(`{ id, x, y, z, c }` in `VoxelEngine.getJsonData`); the color is
represented by the 24-bit integer behind the `'#' + hex` string, whose
parse on import (`parseInt(hex, 16)`) is exact. -/
structure JsonVoxelRecord where
  id : ℕ
  x : ℝ
  y : ℝ
  z : ℝ
  c : ℕ

/-- `VoxelEngine.getJsonData`: the particle snapshot with positions rounded
to 2 decimal places and colors as hex. -/
noncomputable def getJsonData (voxels : List SimulationVoxel) :
    List JsonVoxelRecord :=
  voxels.enum.map fun iv =>
    { id := iv.1
      x := toFixed2 iv.2.x
      y := toFixed2 iv.2.y
      z := toFixed2 iv.2.z
      c := colorGetHex iv.2.color }

/-- `handleJsonImport` of the application root applied to records of the
exported shape: each record becomes a `VoxelData` with the same coordinates
and the parsed 24-bit color.  (On the well-formed records `getJsonData`
produces, the source's `Number(v.x) || 0` and hex-string parsing are exact,
which is what this models.) -/
def handleJsonImport (records : List JsonVoxelRecord) : List VoxelData :=
  records.map fun r => { x := r.x, y := r.y, z := r.z, color := r.c }

/-- `THREE.Color.getHSL` (modelled from the three.js library source):
RGB to hue/saturation/lightness. -/
noncomputable def getHSL (c : ColorRGB) : ℝ × ℝ × ℝ :=
  let mx := max c.r (max c.g c.b)
  let mn := min c.r (min c.g c.b)
  let lightness := (mn + mx) / 2
  if mn = mx then (0, 0, lightness)
  else
    let d := mx - mn
    let saturation :=
      if lightness ≤ 0.5 then d / (mx + mn) else d / (2 - mx - mn)
    let hue :=
      if mx = c.r then (c.g - c.b) / d + (if c.g < c.b then 6 else 0)
      else if mx = c.g then (c.b - c.r) / d + 2
      else (c.r - c.g) / d + 4
    (hue / 6, saturation, lightness)

/-- The `hue2rgb` helper of `THREE.Color.setHSL` (modelled from the three.js
library source). -/
noncomputable def hue2rgb (p q t : ℝ) : ℝ :=
  let t1 := if t < 0 then t + 1 else t
  let t2 := if t1 > 1 then t1 - 1 else t1
  if t2 < 1 / 6 then p + (q - p) * 6 * t2
  else if t2 < 1 / 2 then q
  else if t2 < 2 / 3 then p + (q - p) * 6 * (2 / 3 - t2)
  else p

/-- `THREE.Color.setHSL` (modelled from the three.js library source; its
`euclideanModulo(h, 1)` is the floor-remainder `fmod h 1`). -/
noncomputable def setHSL (h s l : ℝ) : ColorRGB :=
  let h1 := fmod h 1
  let s1 := max 0 (min s 1)
  let l1 := max 0 (min l 1)
  if s1 = 0 then ⟨l1, l1, l1⟩
  else
    let p := if l1 ≤ 0.5 then l1 * (1 + s1) else l1 + s1 - l1 * s1
    let q := 2 * l1 - p
    ⟨hue2rgb q p (h1 + 1 / 3), hue2rgb q p h1, hue2rgb q p (h1 - 1 / 3)⟩

/-- `THREE.Color.offsetHSL` (modelled from the three.js library source):
convert to HSL, offset each channel, convert back. -/
noncomputable def offsetHSL (c : ColorRGB) (dh ds dl : ℝ) : ColorRGB :=
  let hsl := getHSL c
  setHSL (hsl.1 + dh) (hsl.2.1 + ds) (hsl.2.2 + dl)

/-- `VoxelEngine.createVoxels`: each input voxel becomes a particle at rest
at the voxel's coordinates whose color is the voxel color with a one-time
random lightness jitter `Math.random() * 0.06 - 0.03`; draw `i` of the
stream feeds particle `i`. -/
noncomputable def createVoxels (data : List VoxelData) (rng : Rng) :
    List SimulationVoxel :=
  data.enum.map fun iv =>
    { id := iv.1
      x := iv.2.x
      y := iv.2.y
      z := iv.2.z
      color := offsetHSL (colorOfHex iv.2.color) 0 0 (rng iv.1 * 0.06 - 0.03)
      vx := 0, vy := 0, vz := 0, rx := 0, ry := 0, rz := 0
      rvx := 0, rvy := 0, rvz := 0
      dismantleDelay := 0 }

/-- Export of the current store followed by re-import and load as a new
model: `getJsonData` → `handleJsonImport` → `createVoxels`. -/
noncomputable def importRoundTrip (voxels : List SimulationVoxel)
    (rng : Rng) : List SimulationVoxel :=
  createVoxels (handleJsonImport (getJsonData voxels)) rng

theorem getHSL_red : getHSL ⟨1, 0, 0⟩ = (0, 1, 1 / 2) := by
  unfold getHSL
  norm_num

theorem setHSL_offset_red : setHSL 0 1 (1 / 2 + 0.03) = ⟨1, 0.06, 0.06⟩ := by
  unfold setHSL hue2rgb fmod
  norm_num

theorem offsetHSL_red :
    offsetHSL ⟨1, 0, 0⟩ 0 0 0.03 = ⟨1, 0.06, 0.06⟩ := by
  unfold offsetHSL
  rw [getHSL_red]
  dsimp only
  rw [show (0 : ℝ) + 0 = 0 from by norm_num,
    show (1 : ℝ) + 0 = 1 from by norm_num]
  exact setHSL_offset_red

theorem colorGetHex_def (c : ColorRGB) : colorGetHex c =
    (round (max 0 (min (c.r * 255) 255))).toNat * 65536 +
      (round (max 0 (min (c.g * 255) 255))).toNat * 256 +
      (round (max 0 (min (c.b * 255) 255))).toNat := rfl

theorem colorGetHex_red : colorGetHex ⟨1, 0, 0⟩ = 0xFF0000 := by
  rw [colorGetHex_def]
  norm_num [round_eq]
  omega

theorem colorGetHex_jittered :
    colorGetHex ⟨1, 0.06, 0.06⟩ = 0xFF0F0F := by
  rw [colorGetHex_def]
  norm_num [round_eq]
  omega

theorem colorOfHex_red : colorOfHex 0xFF0000 = ⟨1, 0, 0⟩ := by
  unfold colorOfHex
  norm_num

/-- The exported record of the single pure-red resting particle. -/
def redRecord : JsonVoxelRecord := ⟨0, 0, 0, 0, 0xFF0000⟩

/-- The voxel datum the import step recovers from `redRecord`. -/
def redVoxelData : VoxelData := ⟨0, 0, 0, 0xFF0000⟩

/-- Claim C6 (counterexample): export followed by import does NOT preserve
colors.  Exporting the single pure-red particle records color `0xFF0000`,
but re-loading that data re-applies the random lightness jitter of
`createVoxels`: with jitter draw 1 (offset +0.03) the reloaded particle's
color is (1, 0.06, 0.06), whose hex is `0xFF0F0F` ≠ `0xFF0000`. -/
theorem export_import_color_not_preserved :
    (importRoundTrip [restParticle] (fun _ => 1)).map
        (fun v => colorGetHex v.color) = [0xFF0F0F] ∧
    (getJsonData [restParticle]).map JsonVoxelRecord.c = [0xFF0000] ∧
    (0xFF0F0F : ℕ) ≠ 0xFF0000 := by
  have hexport : getJsonData [restParticle] = [redRecord] := by
    unfold getJsonData
    rw [show ([restParticle] : List SimulationVoxel).enum =
      [(0, restParticle)] from rfl]
    rw [List.map_cons, List.map_nil]
    have hfix : toFixed2 0 = 0 := by
      unfold toFixed2
      norm_num
    have hcol : colorGetHex restParticle.color = 0xFF0000 :=
      colorGetHex_red
    rw [show restParticle.x = 0 from rfl, show restParticle.y = 0 from rfl,
      show restParticle.z = 0 from rfl, hfix, hcol]
    rfl
  refine ⟨?_, by rw [hexport]; rfl, by norm_num⟩
  unfold importRoundTrip
  rw [hexport]
  rw [show handleJsonImport [redRecord] = [redVoxelData] from rfl]
  unfold createVoxels
  rw [show ([redVoxelData] : List VoxelData).enum =
    [(0, redVoxelData)] from rfl]
  rw [List.map_cons, List.map_nil, List.map_cons, List.map_nil]
  dsimp only
  rw [show redVoxelData.color = 0xFF0000 from rfl, colorOfHex_red]
  rw [show (1 : ℝ) * 0.06 - 0.03 = 0.03 from by norm_num]
  rw [offsetHSL_red, colorGetHex_jittered]

/-- Claim C6 (amended): export followed by import preserves the particle
count and the (rounded) positions — the reloaded store's positions are
exactly the exported snapshot's rounded coordinates, for every value of the
load-time random stream.  Colors are not preserved: `createVoxels`
re-applies a fresh ±0.03 random lightness jitter to every reloaded color
(see the counterexample). -/
theorem export_import_positions (voxels : List SimulationVoxel) (rng : Rng) :
    ((importRoundTrip voxels rng).length = voxels.length) ∧
    ((importRoundTrip voxels rng).map (fun v => (v.x, v.y, v.z)) =
      (getJsonData voxels).map (fun r => (r.x, r.y, r.z))) ∧
    ((importRoundTrip voxels rng).map (fun v => (v.x, v.y, v.z)) =
      voxels.map fun v => (toFixed2 v.x, toFixed2 v.y, toFixed2 v.z)) := by
  have hcv : ∀ (data : List VoxelData) (rng : Rng),
      (createVoxels data rng).map (fun v => (v.x, v.y, v.z)) =
        data.map fun d => (d.x, d.y, d.z) := by
    intro data rng
    unfold createVoxels
    rw [List.map_map]
    conv_rhs => rw [show data = data.enum.map Prod.snd from
      (List.enum_map_snd data).symm]
    rw [List.map_map]
    rfl
  have hji : ∀ records : List JsonVoxelRecord,
      (handleJsonImport records).map (fun d => (d.x, d.y, d.z)) =
        records.map fun r => (r.x, r.y, r.z) := by
    intro records
    unfold handleJsonImport
    rw [List.map_map]
    rfl
  have hjd : (getJsonData voxels).map (fun r => (r.x, r.y, r.z)) =
      voxels.map fun v => (toFixed2 v.x, toFixed2 v.y, toFixed2 v.z) := by
    unfold getJsonData
    rw [List.map_map]
    conv_rhs => rw [show voxels = voxels.enum.map Prod.snd from
      (List.enum_map_snd voxels).symm]
    rw [List.map_map]
    rfl
  have hpos : (importRoundTrip voxels rng).map (fun v => (v.x, v.y, v.z)) =
      (getJsonData voxels).map fun r => (r.x, r.y, r.z) := by
    unfold importRoundTrip
    rw [hcv, hji]
  refine ⟨?_, hpos, by rw [hpos, hjd]⟩
  unfold importRoundTrip createVoxels handleJsonImport getJsonData
  simp [List.length_map, List.enum_length]

/-- `SWIPE_THRESHOLD` of `GestureController` (0.2): minimum dominant-axis
frame-to-frame displacement for a swipe. -/
def SWIPE_THRESHOLD : ℝ := 0.2

/-- The fast-swing speed threshold of the smash detection in
`GestureController` (`speed > 0.3`). -/
def smashSwingSpeedThreshold : ℝ := 0.3

/-- One processed camera frame as seen by `hands.onResults`: the number of
detected hands (0, 1 or 2), and — for the first hand — the palm (wrist)
landmark and the fist classification. -/
structure GFrame where
  handCount : ℕ
  palm : Vec3
  fist : Bool

/-- The mutable refs of `GestureController` that the per-frame handler reads
and writes: the two-hand stability counter, the shared cooldown deadline,
the previous palm position, the displacement history, and the last-gesture
bookkeeping. -/
structure GState where
  twoHandsFrameCount : ℕ
  cooldown : ℝ
  lastPalm : Option Vec3
  velocityHistory : List (ℝ × ℝ)
  lastGestureFist : Bool
  gestureStartTime : ℝ

/-- A gesture intent delivered to the engine (`onGesture`): `reset` fires a
rebuild, `punch` a smash, `swipe` carries a direction. -/
inductive Intent where
  | rebuild
  | punch
  | swipe (direction : Vec3)

/-- The shake analysis of `hands.onResults`: walks consecutive history
pairs counting x- and y-direction reversals (both magnitudes above 0.05 and
opposite signs) and summing total motion over all entries after the
first. -/
noncomputable def shakeStats : List (ℝ × ℝ) → ℕ × ℕ × ℝ
  | prev :: v :: rest =>
    let s := shakeStats (v :: rest)
    ((if 0.05 < |v.1| ∧ 0.05 < |prev.1| ∧ Real.sign v.1 ≠ Real.sign prev.1
        then s.1 + 1 else s.1),
     (if 0.05 < |v.2| ∧ 0.05 < |prev.2| ∧ Real.sign v.2 ≠ Real.sign prev.2
        then s.2.1 + 1 else s.2.1),
     s.2.2 + |v.1| + |v.2|)
  | _ => (0, 0, 0)

/-- The per-frame gesture handler `hands.onResults` of `GestureController`,
as a pure transition: given the previous refs state, a frame and the
wall-clock time, returns the updated state and the intents fired this frame
(in firing order).  Mirrors the source's control flow: a two-hand frame
increments the stability counter and — once the counter exceeds 10 and the
cooldown has passed — fires one `rebuild`, resets the counter and arms a
2000 ms cooldown, preempting all single-hand processing; a frame with some
but not two hands resets the counter and runs the smash / shake / swipe
pipeline; a frame with no hands only clears the displacement history. -/
noncomputable def processFrame (s : GState) (f : GFrame) (now : ℝ) :
    GState × List Intent :=
  if 0 < f.handCount then
    if f.handCount = 2 then
      let tc := s.twoHandsFrameCount + 1
      if 10 < tc then
        if s.cooldown < now then
          ({ s with twoHandsFrameCount := 0, cooldown := now + 2000 },
            [Intent.rebuild])
        else ({ s with twoHandsFrameCount := tc }, [])
      else ({ s with twoHandsFrameCount := tc }, [])
    else
      let s0 := { s with twoHandsFrameCount := 0 }
      if now < s.cooldown then (s0, [])
      else
        match s.lastPalm with
        | none =>
          ({ s0 with
              lastGestureFist := f.fist
              gestureStartTime :=
                if f.fist = s.lastGestureFist then s.gestureStartTime
                else now
              lastPalm := some f.palm }, [])
        | some lp =>
          let dx := f.palm.x - lp.x
          let dy := f.palm.y - lp.y
          let dz := f.palm.z - lp.z
          let pushed := s.velocityHistory ++ [(dx, dy)]
          let hist1 := if 10 < pushed.length then pushed.tail else pushed
          let speed := Real.sqrt (dx * dx + dy * dy)
          if f.fist = true ∧
              (dz < -0.04 ∨ smashSwingSpeedThreshold < speed) then
            ({ s0 with cooldown := now + 800, velocityHistory := [] },
              [Intent.punch])
          else
            let st := shakeStats hist1
            let shakeFired := (2 ≤ st.1 ∨ 2 ≤ st.2.1) ∧ 0.45 < st.2.2
            let cd1 := if shakeFired then now + 1000 else s.cooldown
            let hist2 := if shakeFired then [] else hist1
            let ints1 := if shakeFired then [Intent.punch] else []
            let finish := fun (cd : ℝ) (ints : List Intent) =>
              ({ s0 with
                  cooldown := cd
                  velocityHistory := hist2
                  lastGestureFist := f.fist
                  gestureStartTime :=
                    if f.fist = s.lastGestureFist then s.gestureStartTime
                    else now
                  lastPalm := some f.palm }, ints)
            if f.fist = false then
              if |dy| < |dx| then
                if SWIPE_THRESHOLD < |dx| then
                  finish (now + 800) (ints1 ++
                    [Intent.swipe (if 0 < dx then ⟨-1, 0, 0⟩ else ⟨1, 0, 0⟩)])
                else finish cd1 ints1
              else
                if SWIPE_THRESHOLD < |dy| then
                  finish (now + 800) (ints1 ++
                    [Intent.swipe (if 0 < dy then ⟨0, -1, 0⟩ else ⟨0, 1, 0⟩)])
                else finish cd1 ints1
            else finish cd1 ints1
  else
    ({ s with velocityHistory := [] }, [])

/-- A whole run of the frame handler: the final state and the per-frame
intent lists, in order. -/
noncomputable def runFrames (s : GState) :
    List (GFrame × ℝ) → GState × List (List Intent)
  | [] => (s, [])
  | fn :: rest =>
    let r := processFrame s fn.1 fn.2
    let rr := runFrames r.1 rest
    (rr.1, r.2 :: rr.2)

/-- The refs state after consuming a prefix of frames. -/
noncomputable def stateAfter (s : GState) (frames : List (GFrame × ℝ)) :
    GState :=
  frames.foldl (fun st fn => (processFrame st fn.1 fn.2).1) s

/-- The fallback frame used to totalize positional frame lookups. -/
noncomputable def defaultFrame : GFrame × ℝ := (⟨0, ⟨0, 0, 0⟩, false⟩, 0)

theorem processFrame_zero_hands (s : GState) (f : GFrame) (now : ℝ)
    (hf : f.handCount = 0) :
    processFrame s f now = ({ s with velocityHistory := [] }, []) := by
  unfold processFrame
  rw [if_neg (by omega)]

theorem processFrame_two_hands (s : GState) (f : GFrame) (now : ℝ)
    (h2 : f.handCount = 2) :
    (10 < s.twoHandsFrameCount + 1 ∧ s.cooldown < now →
      processFrame s f now =
        ({ s with twoHandsFrameCount := 0, cooldown := now + 2000 },
          [Intent.rebuild])) ∧
    (¬(10 < s.twoHandsFrameCount + 1 ∧ s.cooldown < now) →
      processFrame s f now =
        ({ s with twoHandsFrameCount := s.twoHandsFrameCount + 1 }, [])) := by
  constructor
  · intro hc
    unfold processFrame
    rw [if_pos (by omega), if_pos h2]
    dsimp only
    rw [if_pos hc.1, if_pos hc.2]
  · intro hn
    unfold processFrame
    rw [if_pos (by omega), if_pos h2]
    dsimp only
    by_cases ha : 10 < s.twoHandsFrameCount + 1
    · rw [if_pos ha, if_neg fun hb => hn ⟨ha, hb⟩]
    · rw [if_neg ha]

theorem processFrame_single (s : GState) (f : GFrame) (now : ℝ)
    (h1 : 0 < f.handCount) (h2 : f.handCount ≠ 2) :
    (processFrame s f now).1.twoHandsFrameCount = 0 ∧
    Intent.rebuild ∉ (processFrame s f now).2 := by
  unfold processFrame
  rw [if_pos h1, if_neg h2]
  dsimp only
  by_cases hcd : now < s.cooldown
  · rw [if_pos hcd]
    exact ⟨rfl, by simp⟩
  · rw [if_neg hcd]
    rcases hlp : s.lastPalm with _ | lp <;> dsimp only
    · exact ⟨rfl, by simp⟩
    · split_ifs <;> refine ⟨rfl, ?_⟩ <;> simp

theorem processFrame_rebuild_iff (s : GState) (f : GFrame) (now : ℝ) :
    Intent.rebuild ∈ (processFrame s f now).2 ↔
      f.handCount = 2 ∧ 10 < s.twoHandsFrameCount + 1 ∧ s.cooldown < now := by
  constructor
  · intro hmem
    by_cases h0 : 0 < f.handCount
    · by_cases h2 : f.handCount = 2
      · refine ⟨h2, ?_⟩
        by_contra hn
        rw [(processFrame_two_hands s f now h2).2 hn] at hmem
        simp at hmem
      · exact absurd hmem (processFrame_single s f now h0 h2).2
    · rw [processFrame_zero_hands s f now (by omega)] at hmem
      simp at hmem
  · intro hc
    rw [(processFrame_two_hands s f now hc.1).1 ⟨hc.2.1, hc.2.2⟩]
    simp

theorem processFrame_fire (s : GState) (f : GFrame) (now : ℝ)
    (h : Intent.rebuild ∈ (processFrame s f now).2) :
    (processFrame s f now).1.twoHandsFrameCount = 0 ∧
    (processFrame s f now).1.cooldown = now + 2000 ∧
    (processFrame s f now).2 = [Intent.rebuild] := by
  obtain ⟨h2, ha, hb⟩ := (processFrame_rebuild_iff s f now).mp h
  rw [(processFrame_two_hands s f now h2).1 ⟨ha, hb⟩]
  exact ⟨rfl, rfl, rfl⟩

theorem processFrame_counter_le (s : GState) (f : GFrame) (now : ℝ) :
    (processFrame s f now).1.twoHandsFrameCount ≤
      s.twoHandsFrameCount + 1 := by
  by_cases h0 : 0 < f.handCount
  · by_cases h2 : f.handCount = 2
    · by_cases hc : 10 < s.twoHandsFrameCount + 1 ∧ s.cooldown < now
      · rw [(processFrame_two_hands s f now h2).1 hc]
        exact Nat.zero_le _
      · rw [(processFrame_two_hands s f now h2).2 hc]
    · rw [(processFrame_single s f now h0 h2).1]
      exact Nat.zero_le _
  · rw [processFrame_zero_hands s f now (by omega)]
    exact Nat.le_succ _

theorem runFrames_length :
    ∀ (frames : List (GFrame × ℝ)) (s : GState),
      (runFrames s frames).2.length = frames.length := by
  intro frames
  induction frames with
  | nil => intro s; rfl
  | cons fn rest ih =>
    intro s
    show ((runFrames (processFrame s fn.1 fn.2).1 rest).2.length + 1 = _)
    rw [ih]
    rfl

theorem runFrames_getD :
    ∀ (frames : List (GFrame × ℝ)) (s : GState) (k : ℕ),
      k < frames.length →
      (runFrames s frames).2.getD k [] =
        (processFrame (stateAfter s (frames.take k))
          (frames.getD k defaultFrame).1
          (frames.getD k defaultFrame).2).2 := by
  intro frames
  induction frames with
  | nil => intro s k hk; simp at hk
  | cons fn rest ih =>
    intro s k hk
    cases k with
    | zero => rfl
    | succ n =>
      have hn : n < rest.length := by simpa using hk
      show (runFrames (processFrame s fn.1 fn.2).1 rest).2.getD n [] = _
      rw [ih (processFrame s fn.1 fn.2).1 n hn]
      rfl

theorem stateAfter_append (s : GState) (l1 l2 : List (GFrame × ℝ)) :
    stateAfter s (l1 ++ l2) = stateAfter (stateAfter s l1) l2 := by
  unfold stateAfter
  rw [List.foldl_append]

theorem stateAfter_counter_le :
    ∀ (fs : List (GFrame × ℝ)) (s : GState),
      (stateAfter s fs).twoHandsFrameCount ≤
        s.twoHandsFrameCount + fs.length := by
  intro fs
  induction fs with
  | nil => intro s; exact le_refl _
  | cons fn rest ih =>
    intro s
    have h1 := ih (processFrame s fn.1 fn.2).1
    have h2 := processFrame_counter_le s fn.1 fn.2
    have h3 : stateAfter s (fn :: rest) =
        stateAfter (processFrame s fn.1 fn.2).1 rest := rfl
    rw [h3, List.length_cons]
    omega

theorem rebuild_fires_separated (s : GState)
    (frames : List (GFrame × ℝ)) (i j : ℕ) (hij : i < j)
    (hfi : Intent.rebuild ∈ (runFrames s frames).2.getD i [])
    (hfj : Intent.rebuild ∈ (runFrames s frames).2.getD j []) :
    i + 11 ≤ j := by
  have hi : i < frames.length := by
    by_contra h
    rw [List.getD_eq_default _ _
      (by rw [runFrames_length]; omega)] at hfi
    simp at hfi
  have hj : j < frames.length := by
    by_contra h
    rw [List.getD_eq_default _ _
      (by rw [runFrames_length]; omega)] at hfj
    simp at hfj
  rw [runFrames_getD frames s i hi] at hfi
  rw [runFrames_getD frames s j hj] at hfj
  obtain ⟨_, haj, _⟩ :=
    (processFrame_rebuild_iff _ _ _).mp hfj
  have hfire := processFrame_fire _ _ _ hfi
  have htake : frames.take (i + 1) =
      frames.take i ++ [frames.getD i defaultFrame] := by
    rw [List.take_succ, List.getElem?_eq_getElem hi,
      List.getD_eq_getElem _ _ hi]
    rfl
  have hct1 : (stateAfter s (frames.take (i + 1))).twoHandsFrameCount = 0 := by
    rw [htake, stateAfter_append]
    exact hfire.1
  have htakej : frames.take j =
      frames.take (i + 1) ++ (frames.drop (i + 1)).take (j - (i + 1)) := by
    conv_lhs => rw [show j = (i + 1) + (j - (i + 1)) from by omega]
    exact List.take_add _ _ _
  have hcj : (stateAfter s (frames.take j)).twoHandsFrameCount ≤
      j - (i + 1) := by
    rw [htakej, stateAfter_append]
    have hle := stateAfter_counter_le
      ((frames.drop (i + 1)).take (j - (i + 1)))
      (stateAfter s (frames.take (i + 1)))
    rw [hct1] at hle
    have hlen2 : ((frames.drop (i + 1)).take (j - (i + 1))).length ≤
        j - (i + 1) := by
      rw [List.length_take]
      exact min_le_left _ _
    omega
  omega

/-- A gesture state whose two-hand counter has already accumulated five
frames. -/
def gsFive : GState :=
  { twoHandsFrameCount := 5, cooldown := 0, lastPalm := none
    velocityHistory := [], lastGestureFist := false, gestureStartTime := 0 }

/-- A frame with no detected hands. -/
def noHandsFrame : GFrame := { handCount := 0, palm := ⟨0, 0, 0⟩, fist := false }

/-- Claim C8 (counterexample): the two-hand hold counter is NOT reset on
every frame with fewer than two hands.  On a frame with zero detected hands
the handler only clears the velocity history — a counter of 5 stays 5. -/
theorem twoHands_counter_survives_zero_hands :
    (processFrame gsFive noHandsFrame 1).1.twoHandsFrameCount = 5 ∧
    noHandsFrame.handCount < 2 ∧ (5 : ℕ) ≠ 0 := by
  refine ⟨?_, by norm_num [noHandsFrame], by norm_num⟩
  rw [processFrame_zero_hands gsFive noHandsFrame 1 rfl]
  rfl

/-- Claim C8 (amended): (i) a zero-hand frame leaves the whole state — in
particular the two-hand hold counter — unchanged except for clearing the
velocity history, and fires nothing; (ii) a frame with some but not two
hands resets the counter to zero; (iii) a frame fires `Rebuild` exactly when
two hands are detected, the incremented counter exceeds 10 and the cooldown
deadline has passed; (iv) a firing frame emits exactly one `Rebuild`, resets
the counter to zero and arms a 2000 ms cooldown; and (v) over any frame run,
two `Rebuild` firings are at least 11 frames apart — a fresh full hold
period is always needed before the intent can fire again, so a continuous
two-hand hold fires once per full hold window, never once per frame. -/
theorem gesture_rebuild_hold (s : GState) (f : GFrame) (now : ℝ) :
    (f.handCount = 0 →
      processFrame s f now = ({ s with velocityHistory := [] }, [])) ∧
    (0 < f.handCount → f.handCount ≠ 2 →
      (processFrame s f now).1.twoHandsFrameCount = 0) ∧
    (Intent.rebuild ∈ (processFrame s f now).2 ↔
      f.handCount = 2 ∧ 10 < s.twoHandsFrameCount + 1 ∧ s.cooldown < now) ∧
    (Intent.rebuild ∈ (processFrame s f now).2 →
      (processFrame s f now).1.twoHandsFrameCount = 0 ∧
      (processFrame s f now).1.cooldown = now + 2000 ∧
      (processFrame s f now).2 = [Intent.rebuild]) ∧
    (∀ (frames : List (GFrame × ℝ)) (i j : ℕ), i < j →
      Intent.rebuild ∈ (runFrames s frames).2.getD i [] →
      Intent.rebuild ∈ (runFrames s frames).2.getD j [] →
      i + 11 ≤ j) :=
  ⟨processFrame_zero_hands s f now,
   fun h1 h2 => (processFrame_single s f now h1 h2).1,
   processFrame_rebuild_iff s f now,
   processFrame_fire s f now,
   fun frames i j hij => rebuild_fires_separated s frames i j hij⟩

/-- A frame showing exactly two hands. -/
def twoHandsFrame : GFrame :=
  { handCount := 2, palm := ⟨0, 0, 0⟩, fist := false }

/-- Witness for `gesture_rebuild_hold`: with the counter at 10 and the
cooldown open, a two-hand frame at time 5 fires the `Rebuild` intent. -/
theorem gesture_rebuild_hold_witness :
    Intent.rebuild ∈
      (processFrame { gsFive with twoHandsFrameCount := 10 }
        twoHandsFrame 5).2 :=
  (gesture_rebuild_hold { gsFive with twoHandsFrameCount := 10 }
      twoHandsFrame 5).2.2.1.mpr
    ⟨rfl, by norm_num, by
      show ({ gsFive with twoHandsFrameCount := 10 } : GState).cooldown < 5
      rw [show ({ gsFive with twoHandsFrameCount := 10 } :
        GState).cooldown = 0 from rfl]
      norm_num⟩

/-- Claim C9 (counterexample): the swipe threshold is NOT higher than the
smash velocity threshold — `SWIPE_THRESHOLD` (0.2) is strictly lower than
the fast-swing smash speed threshold (0.3). -/
theorem swipe_threshold_lower_than_smash :
    SWIPE_THRESHOLD < smashSwingSpeedThreshold ∧
    ¬smashSwingSpeedThreshold < SWIPE_THRESHOLD := by
  unfold SWIPE_THRESHOLD smashSwingSpeedThreshold
  norm_num

/-- Claim C9 (amended): a `Swipe` intent fires only when the hand is open
(not a fist) and the displacement along the dominant axis since the last
tracked palm position exceeds `SWIPE_THRESHOLD` (0.2); that threshold is
however lower than the smash fast-swing speed threshold (0.3), not higher
as claimed. -/
theorem swipe_requires_open_hand (s : GState) (f : GFrame) (now : ℝ)
    (dir : Vec3) :
    (Intent.swipe dir ∈ (processFrame s f now).2 →
      f.fist = false ∧ ∃ lp, s.lastPalm = some lp ∧
        SWIPE_THRESHOLD < max |f.palm.x - lp.x| |f.palm.y - lp.y|) ∧
    SWIPE_THRESHOLD < smashSwingSpeedThreshold := by
  constructor
  · intro hmem
    by_cases h0 : 0 < f.handCount
    · by_cases h2 : f.handCount = 2
      · exfalso
        by_cases hc : 10 < s.twoHandsFrameCount + 1 ∧ s.cooldown < now
        · rw [(processFrame_two_hands s f now h2).1 hc] at hmem
          simp at hmem
        · rw [(processFrame_two_hands s f now h2).2 hc] at hmem
          simp at hmem
      · unfold processFrame at hmem
        rw [if_pos h0, if_neg h2] at hmem
        dsimp only at hmem
        by_cases hcd : now < s.cooldown
        · rw [if_pos hcd] at hmem
          simp at hmem
        · rw [if_neg hcd] at hmem
          rcases hlp : s.lastPalm with _ | lp
          · rw [hlp] at hmem
            simp at hmem
          · rw [hlp] at hmem
            dsimp only at hmem
            split_ifs at hmem <;>
              first
              | (exfalso; simp at hmem; done)
              | exact ⟨by assumption, lp, rfl,
                  lt_of_lt_of_le (by assumption) (le_max_left _ _)⟩
              | exact ⟨by assumption, lp, rfl,
                  lt_of_lt_of_le (by assumption) (le_max_right _ _)⟩
    · rw [processFrame_zero_hands s f now (by omega)] at hmem
      simp at hmem
  · unfold SWIPE_THRESHOLD smashSwingSpeedThreshold
    norm_num

/-- A gesture state tracking a palm at the origin with no cooldown armed. -/
def gsSwipe : GState :=
  { twoHandsFrameCount := 0, cooldown := 0, lastPalm := some ⟨0, 0, 0⟩
    velocityHistory := [], lastGestureFist := false, gestureStartTime := 0 }

/-- A single open hand whose palm moved 0.5 to the right since the last
frame. -/
def swipeFrame : GFrame := { handCount := 1, palm := ⟨0.5, 0, 0⟩, fist := false }

theorem processFrame_swipe_eval :
    (processFrame gsSwipe swipeFrame 5).2 = [Intent.swipe ⟨-1, 0, 0⟩] := by
  unfold processFrame gsSwipe swipeFrame
  norm_num [shakeStats, SWIPE_THRESHOLD, smashSwingSpeedThreshold,
    abs_of_nonneg]

/-- Witness for `swipe_requires_open_hand`: the concrete rightward
open-hand swipe frame fires a swipe, and indeed the hand is open and the
dominant-axis displacement 0.5 exceeds the threshold. -/
theorem swipe_requires_open_hand_witness :
    swipeFrame.fist = false ∧ ∃ lp, gsSwipe.lastPalm = some lp ∧
      SWIPE_THRESHOLD <
        max |swipeFrame.palm.x - lp.x| |swipeFrame.palm.y - lp.y| :=
  (swipe_requires_open_hand gsSwipe swipeFrame 5 ⟨-1, 0, 0⟩).1
    (by rw [processFrame_swipe_eval]; exact List.mem_singleton.mpr rfl)

end VoxelToy
